import Mathlib

/-!
Verification of the docutils document-tree core (docutils/nodes.py and
docutils/transforms/universal.py) against its natural-language specification.

The Python source is shallowly embedded: each Python function or method that
a claim depends on is translated into an executable Lean definition over
explicit state, and the claims are settled as theorems about those
definitions.  Python dictionaries are modelled as association lists, Python
object identity as arena references (natural numbers), raised exceptions as
Option/Except results, and the reporter collaborator as an output list of
message severity levels.
-/

set_option maxRecDepth 4096

namespace Docutils

/- ============================================================ -/
/- Part 1: child adoption and child-list mutation (Node.setup_child,
   Element.append / insert / extend / __setitem__ / replace)       -/
/- ============================================================ -/

/-- The document object, as seen by Node.setup_child: it carries the
state used to stamp newly adopted nodes (document.current_source and
document.current_line).  The field docRef stands for the identity of the
document object. -/
structure DocInfo where
  docRef : Nat
  current_source : Option String
  current_line : Option Nat
  deriving Repr, DecidableEq

/-- A tree node as seen by the adoption routine: parent back-reference
(by element label), resolved document reference, source and line.
The label field stands for the identity of the Python object. -/
structure MutNode where
  label : Nat
  parent : Option Nat
  document : Option DocInfo
  source : Option String
  line : Option Nat
  deriving Repr, DecidableEq

/-- An Element as seen by the child-list mutation methods: its identity
label, its resolved document property, and its ordered children. -/
structure MutElem where
  label : Nat
  document : Option DocInfo
  children : List MutNode
  deriving Repr, DecidableEq

/-- Node.setup_child: set child.parent to self; if self.document is set
(Node instances are always truthy, so the Python test "if self.document:"
is exactly an is-not-None test), propagate the document reference and,
when unset on the child, the document's current_source and current_line. -/
def setup_child (e : MutElem) (child : MutNode) : MutNode :=
  let child := { child with parent := some e.label }
  match e.document with
  | none => child
  | some d =>
      { child with
        document := some d
        source := if child.source = none then d.current_source else child.source
        line := if child.line = none then d.current_line else child.line }

/-- Element.append: setup_child then children.append. -/
def Element_append (e : MutElem) (item : MutNode) : MutElem :=
  { e with children := e.children ++ [setup_child e item] }

/-- Element.extend: append each node in turn. -/
def Element_extend (e : MutElem) (items : List MutNode) : MutElem :=
  items.foldl Element_append e

/-- Python list.insert clamps the index to the list length. -/
def pyInsertAt (l : List MutNode) (index : Nat) (item : MutNode) : List MutNode :=
  l.take index ++ [item] ++ l.drop index

/-- Python slice assignment l[i:j] = new for non-negative indices:
indices are clamped to the length and j is clamped below by i. -/
def pySetSlice (l : List MutNode) (i j : Nat) (new : List MutNode) : List MutNode :=
  let i' := min i l.length
  let j' := max i' (min j l.length)
  l.take i' ++ new ++ l.drop j'

/-- Element.insert with a Node item: setup_child then children.insert. -/
def Element_insert_node (e : MutElem) (index : Nat) (item : MutNode) : MutElem :=
  { e with children := pyInsertAt e.children index (setup_child e item) }

/-- Element.insert with a list item: delegates to self[index:index] = item,
which is slice assignment, hence setup_child on every inserted node. -/
def Element_insert_list (e : MutElem) (index : Nat) (items : List MutNode) : MutElem :=
  { e with children :=
      pySetSlice e.children index index (items.map (setup_child e)) }

/-- Element.__setitem__ with an integer key: setup_child then assign.
The Python code raises IndexError for an out-of-range key; the model
returns none in that case. -/
def Element_setitem_index (e : MutElem) (key : Nat) (item : MutNode) :
    Option MutElem :=
  if key < e.children.length then
    some { e with children := e.children.set key (setup_child e item) }
  else
    none

/-- Element.__setitem__ with a slice key: setup_child on each node of the
assigned list, then slice-assign. -/
def Element_setitem_slice (e : MutElem) (i j : Nat) (items : List MutNode) :
    MutElem :=
  { e with children := pySetSlice e.children i j (items.map (setup_child e)) }

/-- Element.replace(old, new) with a Node replacement: index lookup of the
old child, setup_child, then __setitem__.  The model takes the index of the
old child directly (Element.index equality subtleties are not needed by the
claims). -/
def Element_replace_node (e : MutElem) (index : Nat) (new : MutNode) :
    Option MutElem :=
  Element_setitem_index e index (setup_child e new)

/-- Element.replace(old, new) with a list replacement:
self[index:index+1] = new. -/
def Element_replace_list (e : MutElem) (index : Nat) (new : List MutNode) :
    MutElem :=
  Element_setitem_slice e index (index + 1) new

/-- A node is adopted by element e when its parent is e and, if e belongs
to a document, the document reference was propagated together with
current_source / current_line for the fields that were unset. -/
def Adopted (e : MutElem) (orig c : MutNode) : Prop :=
  c.parent = some e.label ∧
  (∀ d, e.document = some d →
      c.document = some d ∧
      (orig.source = none → c.source = d.current_source) ∧
      (∀ s, orig.source = some s → c.source = some s) ∧
      (orig.line = none → c.line = d.current_line) ∧
      (∀ k, orig.line = some k → c.line = some k)) ∧
  (e.document = none → c.document = orig.document ∧ c.source = orig.source
      ∧ c.line = orig.line)

/- ============================================================ -/
/- Part 2: Node.__bool__ and Element.__len__                     -/
/- ============================================================ -/

/-- Node.__bool__ returns True unconditionally for every node. -/
def Node_bool (_n : MutNode) : Bool := true

/-- Element.__bool__ is inherited unchanged from Node. -/
def Element_bool (_e : MutElem) : Bool := true

/-- Element.__len__ returns len(self.children). -/
def Element_len (e : MutElem) : Nat := e.children.length

/- ============================================================ -/
/- Part 3: the FilterMessages transform
   (docutils/transforms/universal.py, FilterMessages.apply)      -/
/- ============================================================ -/

/-- A doctree as seen by the message-filtering transform: the tag name and,
for system_message elements, the value of the level attribute. -/
inductive MTree : Type where
  | node (tag : String) (level : Nat) (children : List MTree) : MTree

namespace MTree

def tag : MTree → String
  | node t _ _ => t

def level : MTree → Nat
  | node _ l _ => l

def children : MTree → List MTree
  | node _ _ cs => cs

end MTree

/-- A node that FilterMessages.apply removes: a system_message whose level
attribute is below the reporter's report_level. -/
def belowThreshold (report_level : Nat) (t : MTree) : Bool :=
  t.tag = "system_message" && t.level < report_level

mutual

/-- FilterMessages.apply: snapshot all system_message nodes in the document
(document.findall) and remove from its parent every one whose level is below
the reporter's report_level.  The net effect on the remaining tree is the
recursive prune below: a child is kept iff it is not a below-threshold
system_message, and surviving children are pruned recursively (removals
inside subtrees that are themselves removed leave no trace in the
document). -/
def FilterMessages_apply (report_level : Nat) : MTree → MTree
  | .node t l cs => .node t l (fmPrune report_level cs)

/-- Effect of the removal loop on one children list: drop the
below-threshold system messages, prune the survivors recursively. -/
def fmPrune (report_level : Nat) : List MTree → List MTree
  | [] => []
  | c :: cs =>
      (if belowThreshold report_level c then []
       else [FilterMessages_apply report_level c]) ++ fmPrune report_level cs

end

mutual

/-- Every strict descendant of the tree satisfies the boolean predicate. -/
def allDescBelow (p : MTree → Bool) : MTree → Bool
  | .node _ _ cs => allDescList p cs

/-- Every member of the forest, and every descendant of a member,
satisfies the boolean predicate. -/
def allDescList (p : MTree → Bool) : List MTree → Bool
  | [] => true
  | c :: cs => (p c && allDescBelow p c) && allDescList p cs

end

/- ============================================================ -/
/- Part 4: document identifier and name registration
   (document.set_id, document.set_name_id_map,
    document.set_duplicate_name_id, dupname)                    -/
/- ============================================================ -/

/-- Lookup in an association list (a Python dict). -/
def alookup {α : Type} : List (String × α) → String → Option α
  | [], _ => none
  | p :: rest, k => if p.1 = k then some p.2 else alookup rest k

/-- Key membership in an association list (Python: k in d). -/
def ahas {α : Type} (l : List (String × α)) (k : String) : Bool :=
  (alookup l k).isSome

/-- Overwrite the value stored under an existing key, keeping its place. -/
def areplace {α : Type} : List (String × α) → String → α → List (String × α)
  | [], _, _ => []
  | p :: rest, k, v =>
      (if p.1 = k then (k, v) else p) :: areplace rest k v

/-- Python d[k] = v: overwrite in place if the key exists, append otherwise. -/
def aset {α : Type} (l : List (String × α)) (k : String) (v : α) :
    List (String × α) :=
  if ahas l k then areplace l k v else l ++ [(k, v)]

/-- Python d.setdefault(k, v): insert only when the key is absent. -/
def asetdefault {α : Type} (l : List (String × α)) (k : String) (v : α) :
    List (String × α) :=
  if ahas l k then l else l ++ [(k, v)]

/-- The per-node state touched by name registration: the names, dupnames
and ids attribute lists, the refuri attribute (absent for non-external
targets) and the referenced flag set by dupname. -/
structure NodeData where
  names : List String
  dupnames : List String
  idsAttr : List String
  refuri : Option String
  referenced : Bool
  deriving Repr, DecidableEq

/-- The document state touched by set_id / set_name_id_map: the node arena
(object identity as a Nat reference), document.ids, document.nameids,
document.nametypes, and the levels of the system messages the reporter
produced (reporter.info is level 1, reporter.severe is level 4,
reporter.system_message(level, ...) is the given level). -/
structure DocState where
  store : List (Nat × NodeData)
  ids : List (String × Nat)
  nameids : List (String × Option String)
  nametypes : List (String × Bool)
  messages : List Nat
  deriving Repr, DecidableEq

/-- Reference lookup in the node arena. -/
def nlookup : List (Nat × NodeData) → Nat → Option NodeData
  | [], _ => none
  | p :: rest, r => if p.1 = r then some p.2 else nlookup rest r

/-- In-place update of a reference in the node arena. -/
def nupdate : List (Nat × NodeData) → Nat → NodeData → List (Nat × NodeData)
  | [], _, _ => []
  | p :: rest, r, n =>
      (if p.1 = r then (r, n) else p) :: nupdate rest r n

/-- Node arena lookup (dereference a Python object reference). -/
def getNode (st : DocState) (r : Nat) : Option NodeData :=
  nlookup st.store r

/-- Node arena update (mutate the referenced Python object in place). -/
def putNode (st : DocState) (r : Nat) (n : NodeData) : DocState :=
  { st with store := nupdate st.store r n }

/-- dupname(node, name): append the name to node dupnames, remove it from
node names (list.remove raises ValueError when the name is absent: the
model returns none in that case), and set the referenced flag. -/
def dupnameData (n : NodeData) (name : String) : Option NodeData :=
  if name ∈ n.names then
    some { n with dupnames := n.dupnames ++ [name],
                  names := n.names.erase name,
                  referenced := true }
  else
    none

/-- dupname applied to the node behind reference r in the arena. -/
def dupnameRef (st : DocState) (r : Nat) (name : String) : Option DocState := do
  let n ← getNode st r
  let n' ← dupnameData n name
  pure (putNode st r n')

/-- document.set_id for a node that already carries ids (the branch taken
when node['ids'] is non-empty): register each id with dict.setdefault
(first registrant wins), emit a severe diagnostic (level 4) for every id
already registered to a different node, and return the loop variable,
which after the loop holds the LAST id of the list.  The id-generation
branch for nodes without ids is not modelled; no claim depends on it. -/
def set_id_step (r : Nat) (acc : DocState) (id : String) : DocState :=
  let acc := { acc with ids := asetdefault acc.ids id r }
  if alookup acc.ids id ≠ some r then
    { acc with messages := acc.messages ++ [4] }
  else acc

def set_id (st : DocState) (r : Nat) : Option (DocState × String) := do
  let n ← getNode st r
  match n.idsAttr.getLast? with
  | none => none
  | some last => pure (n.idsAttr.foldl (set_id_step r) st, last)

/-- document.set_duplicate_name_id(node, id, name, msgnode, explicit),
translated clause by clause.  Python dict lookups nameids[name],
nametypes[name] and self.ids[old_id] raise KeyError when the key is
missing, and dupname raises ValueError when the name is not in the
node's names list; the model returns none in those cases.  The msgnode
parameter only controls attachment of the created message to a collector
node and does not change the document state; it is omitted.  The
messages field records the severity level of every system message the
reporter creates, in creation order. -/
def set_duplicate_name_id (st : DocState) (r : Nat) (id name : String)
    (explicit : Bool) : Option DocState := do
  let node ← getNode st r
  let old_id ← alookup st.nameids name
  let old_explicit ← alookup st.nametypes name
  let st := { st with nametypes := aset st.nametypes name (old_explicit || explicit) }
  let st ←
    if explicit then
      if old_explicit then do
        -- level = 2; lowered to 1 when both targets are external
        -- references to an identical URI
        let (st, level) ←
          match old_id with
          | some oid => do
              let oref ← alookup st.ids oid
              let old_node ← getNode st oref
              let level :=
                match node.refuri with
                | some refuri =>
                    if old_node.names ≠ [] && old_node.refuri = some refuri
                    then 1 else 2
                | none => 2
              if level > 1 then do
                let st ← dupnameRef st oref name
                pure ({ st with nameids := aset st.nameids name none }, level)
              else
                pure (st, level)
          | none => pure (st, 2)
        let st := { st with messages := st.messages ++ [level] }
        dupnameRef st r name
      else do
        let st := { st with nameids := aset st.nameids name (some id) }
        match old_id with
        | some oid => do
            let oref ← alookup st.ids oid
            dupnameRef st oref name
        | none => pure st
    else do
      let st ←
        match old_id with
        | some oid =>
            if !old_explicit then do
              let st := { st with nameids := aset st.nameids name none }
              let oref ← alookup st.ids oid
              dupnameRef st oref name
            else pure st
        | none => pure st
      dupnameRef st r name
  if !explicit || (!old_explicit && old_id.isSome) then
    pure { st with messages := st.messages ++ [1] }
  else
    pure st

/-- The loop body of document.set_name_id_map for one name. -/
def set_name_id_map_one (st : DocState) (r : Nat) (id : String)
    (explicit : Bool) (name : String) : Option DocState :=
  if ahas st.nameids name then
    set_duplicate_name_id st r id name explicit
  else
    some { st with nameids := aset st.nameids name (some id),
                   nametypes := aset st.nametypes name explicit }

/-- document.set_name_id_map(node, id, msgnode, explicit): iterate over a
snapshot (tuple) of the node's names; names already registered go through
set_duplicate_name_id, fresh ones are entered into nameids/nametypes. -/
def set_name_id_map (st : DocState) (r : Nat) (id : String)
    (explicit : Bool) : Option DocState := do
  let node ← getNode st r
  node.names.foldlM (fun acc name => set_name_id_map_one acc r id explicit name) st

/-- Scenario: two explicit targets both named x, both with assigned ids,
no refuri anywhere (so the identical-refuri exception cannot apply).
Node 0 holds id1 and is registered for name x; node 1 holds id2. -/
def dupExpOld : NodeData := ⟨["x"], [], ["id1"], none, false⟩

def dupExpNew : NodeData := ⟨["x"], [], ["id2"], none, false⟩

def dupExpState : DocState :=
  ⟨[(0, dupExpOld), (1, dupExpNew)], [("id1", 0), ("id2", 1)],
   [("x", some "id1")], [("x", true)], []⟩

/-- Scenario: two explicit external targets named x with the identical
refuri, exercising the identical-URI special case. -/
def sameUriOld : NodeData := ⟨["x"], [], ["id1"], some "http://a", false⟩

def sameUriNew : NodeData := ⟨["x"], [], ["id2"], some "http://a", false⟩

def sameUriState : DocState :=
  ⟨[(0, sameUriOld), (1, sameUriNew)], [("id1", 0), ("id2", 1)],
   [("x", some "id1")], [("x", true)], []⟩

/-- Scenario for set_id: a node carrying the two ids a and b, neither
registered yet. -/
def twoIdsNode : NodeData := ⟨[], [], ["a", "b"], none, false⟩

def twoIdsState : DocState := ⟨[(0, twoIdsNode)], [], [], [], []⟩

/- ============================================================ -/
/- Part 5: make_id (docutils.nodes.make_id)                      -/
/- ============================================================ -/

/-- ASCII whitespace recognized by Python str.split() (the split step runs
after the ascii-ignore encoding, so only code points below 128 remain). -/
def pyIsSpace (c : Char) : Bool :=
  c = ' ' || c = '\t' || c = '\n' || c = '\x0b' || c = '\x0c' || c = '\r'

/-- The encode('ascii', 'ignore').decode('ascii') step of make_id: keep
exactly the code points below 128. -/
def asciiIgnore (l : List Char) : List Char :=
  l.filter (fun c => c.toNat < 128)

/-- Cut the character list at every whitespace character (empty pieces
mark adjacent separators). -/
def pyWordsAux : List Char → List (List Char)
  | [] => []
  | c :: cs =>
      if pyIsSpace c then [] :: pyWordsAux cs
      else
        match pyWordsAux cs with
        | [] => [[c]]
        | w :: ws => (c :: w) :: ws

/-- Python str.split() with no separator: maximal runs of non-whitespace
(the empty pieces between adjacent separators are discarded). -/
def pyWords (l : List Char) : List (List Char) :=
  (pyWordsAux l).filter (fun w => !w.isEmpty)

/-- The ' '.join(id.split()) step of make_id. -/
def splitJoin (l : List Char) : List Char :=
  List.intercalate [' '] (pyWords l)

/-- A character matched by the regex class [a-z0-9], by code point
(97-122 and 48-57). -/
def isLowAlnum (c : Char) : Bool :=
  (97 ≤ c.toNat && c.toNat ≤ 122) || (48 ≤ c.toNat && c.toNat ≤ 57)

/-- A character matched by the regex class [a-z], by code point. -/
def isLowAlpha (c : Char) : Bool :=
  97 ≤ c.toNat && c.toNat ≤ 122

/-- The _non_id_chars.sub('-', ...) step: replace every maximal run of
characters outside [a-z0-9] by a single hyphen (a character of a
non-matching run contributes the hyphen only when the processed tail
does not already start with it). -/
def collapseNonId : List Char → List Char
  | [] => []
  | c :: cs =>
      if isLowAlnum c then c :: collapseNonId cs
      else
        let r := collapseNonId cs
        if r.head? = some '-' then r else '-' :: r

/-- A character matched by the regex class [-0-9], by code point (the
hyphen is code point 45). -/
def isDigitOrHyphen (c : Char) : Bool :=
  c.toNat = 45 || (48 ≤ c.toNat && c.toNat ≤ 57)

/-- The _non_id_at_ends.sub('', ...) step: the regex
^[-0-9]+|-+$ removes the maximal leading run of hyphens and digits and
the maximal trailing run of hyphens. -/
def stripAtEnds (l : List Char) : List Char :=
  (l.dropWhile isDigitOrHyphen).rdropWhile (fun c => c = '-')

/-- docutils.nodes.make_id.  The first three steps of the source
(str.lower, the two translate tables _non_id_translate_digraphs and
_non_id_translate, and unicodedata.normalize('NFKD', ...)) are Unicode
character-table maps whose tables live outside this repository (the str
and unicodedata standard library); their composite enters the model as
the function parameter uni, and every later step is translated exactly.
The theorems below hold for every choice of uni, because the ascii-ignore
encoding step that follows keeps only code points below 128. -/
def make_id (uni : String → String) (s : String) : String :=
  String.mk (stripAtEnds (collapseNonId (splitJoin (asciiIgnore ((uni s).data)))))

/-- Deterministic automaton of the regular expression
[a-z](-?[a-z0-9]+)*: state 0 start, state 1 accepting (just read a
letter or digit), state 2 just read a hyphen, state 3 dead. -/
def dfaStep : Nat → Char → Nat
  | 0, c => if isLowAlpha c then 1 else 3
  | 1, c => if isLowAlnum c then 1 else if c = '-' then 2 else 3
  | 2, c => if isLowAlnum c then 1 else 3
  | _, _ => 3

/-- Acceptance by the [a-z](-?[a-z0-9]+)* automaton. -/
def idRegexAccept (s : String) : Bool :=
  s.data.foldl dfaStep 0 = 1

/-- Modelled from the spec: the composite of Python str.lower, the two
transliteration tables of make_id and unicodedata NFKD decomposition
(all Unicode tables outside this repository), tabulated on the
characters of the spec's example string.  The umlaut and acute letters
decompose into the base letter followed by a combining mark (U+0308,
U+0301); every other character of the example lowercases in ASCII. -/
def lowerNFKDchar (c : Char) : List Char :=
  if c = 'Ü' then ['u', '̈']
  else if c = 'ï' then ['i', '̈']
  else if c = 'ö' then ['o', '̈']
  else if c = 'é' then ['e', '́']
  else [c.toLower]

/-- The modelled lower-translate-NFKD composite for the example string. -/
def uniExample (s : String) : String :=
  String.mk (s.data.flatMap lowerNFKDchar)

/- ============================================================ -/
/- Part 6: attribute and content-model validation
   (Element.validate, Element.validate_attributes,
    Element.validate_content) on a universe of the element kinds
   the claims need: bullet_list, list_item, paragraph, Text.      -/
/- ============================================================ -/

/-- Python attribute values as stored in Element.attributes. -/
inductive AttrVal : Type where
  | s (v : String)
  | ls (v : List String)
  | i (v : Int)
  | b (v : Bool)
  deriving Repr, DecidableEq

/-- Element kinds of the modelled universe. -/
inductive DTag : Type where
  | bullet_list
  | list_item
  | paragraph
  deriving Repr, DecidableEq

/-- Doctree nodes: elements with attributes and children, and Text
leaves. -/
inductive DNode : Type where
  | elem (tag : DTag) (attrs : List (String × AttrVal)) (children : List DNode)
  | text (s : String)

def tagNameOf : DTag → String
  | .bullet_list => "bullet_list"
  | .list_item => "list_item"
  | .paragraph => "paragraph"

/-- A category position in a content model: either one concrete element
class, or one of the category classes used by the modelled elements
(Body for list_item's model; the (Text, Inline) pair for paragraph's
TextElement model). -/
inductive Category : Type where
  | cls (t : DTag)
  | body
  | textOrInline
  deriving Repr, DecidableEq

/-- isinstance(child, category) for the modelled universe: bullet_list
(via Sequential) and paragraph (via General) are Body subclasses,
list_item (a Part) is not; no Inline element kind is in the universe. -/
def catMatches : Category → DNode → Bool
  | .cls t, .elem t2 _ _ => t2 = t
  | .cls _, .text _ => false
  | .body, .elem t2 _ _ => t2 = .bullet_list || t2 = .paragraph
  | .body, .text _ => false
  | .textOrInline, .text _ => true
  | .textOrInline, .elem _ _ _ => false

/-- isinstance on the current iterator value (None matches nothing). -/
def catMatchesOpt (cat : Category) : Option DNode → Bool
  | none => false
  | some n => catMatches cat n

/-- The type name used by Element._report_child: the class name, or the
'> or <' join of the class names for a tuple category. -/
def catName : Category → String
  | .cls t => tagNameOf t
  | .body => "Body"
  | .textOrInline => "Text> or <Inline"

/-- The content models declared by the modelled element classes:
bullet_list is (list_item+), list_item is (%body.elements;)*, and
paragraph inherits TextElement's (#PCDATA | %inline.elements;)*. -/
def content_model : DTag → List (Category × Char)
  | .bullet_list => [(.cls .list_item, '+')]
  | .list_item => [(.body, '*')]
  | .paragraph => [(.textOrInline, '*')]

/-- Element.valid_attributes: the common attributes, plus bullet for
bullet_list. -/
def valid_attributes : DTag → List String
  | .bullet_list => ["ids", "classes", "names", "dupnames", "source", "bullet"]
  | _ => ["ids", "classes", "names", "dupnames", "source"]

/-- A validation failure (the source formats these into the message
string of a raised ValidationError; the model keeps them structured, so
that a theorem can state exactly which problems one raise reports). -/
inductive VError : Type where
  | invalidAttributes (tag : DTag) (msgs : List String)
  | missingChild (tag : DTag) (typeName : String)
  | expectingChild (tag : DTag) (typeName : String) (got : String)
  | spuriousText (tag : DTag) (text : String)
  | childNotAllowed (tag : DTag) (childTag : DTag)
  deriving Repr, DecidableEq

/-- Python str() of an attribute value, as interpolated into error
messages. -/
def pyStrOf : AttrVal → String
  | .s v => v
  | .ls vs => "[" ++ String.intercalate ", " (vs.map (fun v => "'" ++ v ++ "'")) ++ "]"
  | .i n => toString n
  | .b true => "True"
  | .b false => "False"

/-- whitespace_normalize_name: collapse whitespace (case preserved),
which is exactly the split-and-join step shared with make_id. -/
def whitespace_normalize_name (s : String) : String :=
  String.mk (splitJoin s.data)

/-- split_name_list: split a backslash-escaped name list at non-escaped
spaces, using the NULL-character escape dance of the source. -/
def split_name_list (s : String) : List String :=
  let s1 := s.replace "\\" "\x00"
  let s2 := s1.replace "\x00\x00" "\\"
  let s3 := s2.replace "\x00 " "\x00\x00"
  (s3.splitOn " ").map
    (fun n => (n.replace "\x00\x00" " ").replace "\x00" "")

/-- validate_identifier: the value must be a fixed point of make_id
(parameterized by the same Unicode prefix as make_id itself). -/
def validate_identifier (uni : String → String) (v : String) :
    Except String String :=
  if v ≠ make_id uni v then
    .error ("\"" ++ v ++ "\" is no valid id or class name.")
  else
    .ok v

/-- validate_identifier_list: a str is split at whitespace, then every
token must be a valid identifier.  A non-sequence value raises
TypeError, modelled as an error result. -/
def validate_identifier_list (uni : String → String) (v : AttrVal) :
    Except String AttrVal := do
  let tokens ←
    match v with
    | .s str => pure ((pyWords str.data).map String.mk)
    | .ls vs => pure vs
    | _ => .error "value is not iterable"
  let rec go : List String → Except String Unit
    | [] => .ok ()
    | t :: ts => do
        let _ ← validate_identifier uni t
        go ts
  let _ ← go tokens
  pure (.ls tokens)

/-- validate_refname_list: a str is split with split_name_list, then
every name is whitespace-normalized. -/
def validate_refname_list (v : AttrVal) : Except String AttrVal :=
  match v with
  | .s str => .ok (.ls ((split_name_list str).map whitespace_normalize_name))
  | .ls vs => .ok (.ls (vs.map whitespace_normalize_name))
  | _ => .error "value is not iterable"

/-- The ATTRIBUTE_VALIDATORS entries for the attribute names valid in
the modelled universe (ids and classes use validate_identifier_list,
names and dupnames use validate_refname_list, source and bullet use
str).  The catch-all mirrors the KeyError a missing table entry raises,
which validate_attributes catches like a validator failure; it is
unreachable for the modelled valid attributes. -/
def attributeValidator (uni : String → String) :
    String → AttrVal → Except String AttrVal
  | "ids", v => validate_identifier_list uni v
  | "classes", v => validate_identifier_list uni v
  | "names", v => validate_refname_list v
  | "dupnames", v => validate_refname_list v
  | "source", v => .ok (.s (pyStrOf v))
  | "bullet", v => .ok (.s (pyStrOf v))
  | _, _ => .error "KeyError"

/-- One message of the invalid-attribute-name kind. -/
def attrNotOneOfMsg (tag : DTag) (key : String) : String :=
  "Attribute \"" ++ key ++ "\" not one of \"" ++
    String.intercalate "\", \"" (valid_attributes tag) ++ "\"."

/-- One message of the invalid-attribute-value kind. -/
def attrInvalidValueMsg (key : String) (value : AttrVal) (e : String) : String :=
  "Attribute \"" ++ key ++ "\" has invalid value \"" ++ pyStrOf value ++
    "\".\n  " ++ e

/-- The collection loop of Element.validate_attributes: walk the
attribute dict in order, skip internal: attributes, collect a message
for every name outside valid_attributes and for every value its
validator rejects, normalizing accepted values in place. -/
def va_go (uni : String → String) (tag : DTag) :
    List (String × AttrVal) → List (String × AttrVal) × List String
  | [] => ([], [])
  | (key, value) :: rest =>
      let pr := va_go uni tag rest
      if key.startsWith "internal:" then ((key, value) :: pr.1, pr.2)
      else if key ∈ valid_attributes tag then
        match attributeValidator uni key value with
        | .ok v2 => ((key, v2) :: pr.1, pr.2)
        | .error e => ((key, value) :: pr.1, attrInvalidValueMsg key value e :: pr.2)
      else
        ((key, value) :: pr.1, attrNotOneOfMsg tag key :: pr.2)

/-- Element.validate_attributes: raise one ValidationError carrying ALL
collected attribute messages when there is at least one, otherwise
return the normalized attributes. -/
def validate_attributes (uni : String → String) (tag : DTag)
    (attrs : List (String × AttrVal)) :
    Except VError (List (String × AttrVal)) :=
  match va_go uni tag attrs with
  | (attrs2, []) => .ok attrs2
  | (_, msgs) => .error (.invalidAttributes tag msgs)

/-- Element._report_child: a missing required child, or a child of the
wrong kind (Text reported with its text, elements with their tag). -/
def report_child (tag : DTag) (child : Option DNode) (cat : Category) : VError :=
  match child with
  | none => .missingChild tag (catName cat)
  | some (.text s) => .expectingChild tag (catName cat) ("text data \"" ++ s ++ "\"")
  | some (.elem t _ _) => .expectingChild tag (catName cat) (tagNameOf t)

/-- The inner for-loop of validate_content for a one-or-more or
zero-or-more quantifier: pass all further matching elements, stopping at
the first non-match (which stays the current child) or exhaustion (the
current child becomes None).  check_position is a no-op for every
element kind in the modelled universe. -/
def consumeRun (cat : Category) : List DNode → Option DNode × List DNode
  | [] => (none, [])
  | c :: cs => if !catMatches cat c then (some c, cs) else consumeRun cat cs

/-- The grammar walk of Element.validate_content: for each
(category, quantifier) pair in order, fail on a non-match under '.' or
'+', skip the part under '?' or '*', else consume one child ('.', '?')
or a maximal run ('*', '+'). -/
def vcLoop (tag : DTag) : List (Category × Char) → Option DNode → List DNode →
    Except VError (Option DNode × List DNode)
  | [], child, rest => .ok (child, rest)
  | (cat, q) :: model, child, rest =>
      if !catMatchesOpt cat child then
        if q = '.' || q = '+' then .error (report_child tag child cat)
        else vcLoop tag model child rest
      else
        if q = '.' || q = '?' then vcLoop tag model rest.head? rest.tail
        else
          let pr := consumeRun cat rest
          vcLoop tag model pr.1 pr.2

/-- Element.validate_content: walk the content model over the children
and return the leftover children (empty when the iterator was
exhausted), or raise for a missing or ill-typed required child. -/
def validate_content (tag : DTag) (model : List (Category × Char))
    (elements : List DNode) : Except VError (List DNode) :=
  match vcLoop tag model elements.head? elements.tail with
  | .error e => .error e
  | .ok (none, _) => .ok []
  | .ok (some c, rest) => .ok (c :: rest)

/-- The error Element.validate raises for the first leftover child. -/
def leftoverError (tag : DTag) : DNode → VError
  | .text s => .spuriousText tag s
  | .elem t _ _ => .childNotAllowed tag t

/-- The per-node part of Element.validate: validate_attributes (which
raises before anything else when any attribute is bad), then
validate_content, then raise for the first leftover child. -/
def validate_node (uni : String → String) (tag : DTag)
    (attrs : List (String × AttrVal)) (children : List DNode) :
    Except VError Unit := do
  let _ ← validate_attributes uni tag attrs
  match validate_content tag (content_model tag) children with
  | .error e => .error e
  | .ok [] => .ok ()
  | .ok (c :: _) => .error (leftoverError tag c)

mutual

/-- Element.validate with recursive=True: the node's own attribute and
content checks, then each child in order.  Text.validate is a no-op. -/
def Element_validate (uni : String → String) : DNode → Except VError Unit
  | .text _ => .ok ()
  | .elem t a cs => do
      let _ ← validate_node uni t a cs
      validate_children uni cs

def validate_children (uni : String → String) : List DNode → Except VError Unit
  | [] => .ok ()
  | c :: cs => do
      let _ ← Element_validate uni c
      validate_children uni cs

end

/-- A bullet_list with the default list attributes, one unknown
attribute foo, and no children: both an attribute violation and a
content-model violation. -/
def badBullet : DNode :=
  .elem .bullet_list
    [("ids", .ls []), ("classes", .ls []), ("names", .ls []),
     ("dupnames", .ls []), ("foo", .s "bar")] []

/-- A bullet_list with only the default list attributes and no
children: valid attributes, missing required child. -/
def emptyBullet : DNode :=
  .elem .bullet_list
    [("ids", .ls []), ("classes", .ls []), ("names", .ls []),
     ("dupnames", .ls [])] []

/- ============================================================ -/
/- Part 7: the walkabout traversal (Node.walkabout).
   Nodes carry a label standing for their Python identity; visitor
   dispatch (dispatch_visit / dispatch_departure) is abstracted into
   two signal maps giving, per node, the TreePruningException the
   handler raises (or that it returns normally). -/
/- ============================================================ -/

/-- Outcome of one visitor handler call: return normally, or raise one
of the traversal control exceptions (SkipChildren, SkipSiblings,
SkipNode, SkipDeparture, StopTraversal). -/
inductive Sig : Type where
  | cont
  | skipChildren
  | skipSiblings
  | skipNode
  | skipDeparture
  | stopT
  deriving Repr, DecidableEq

/-- A visitor: what dispatch_visit and dispatch_departure do on the
node with a given label. -/
structure Visitor where
  visitSig : Nat → Sig
  departSig : Nat → Sig

/-- A tree with labelled nodes. -/
inductive VTree : Type where
  | node (label : Nat) (children : List VTree)

/-- Traversal events: a dispatch_visit call and a dispatch_departure
call for the node with the given label. -/
inductive Ev : Type where
  | vis (l : Nat)
  | dep (l : Nat)
  deriving Repr, DecidableEq

/-- Result of one walkabout frame: a normal return carrying the stop
flag, or an exception escaping the frame. -/
inductive WRes : Type where
  | ret (stop : Bool)
  | exc (s : Sig)
  deriving Repr, DecidableEq

/-- Result of the children loop: normal completion carrying the stop
flag, or an exception escaping a child frame. -/
inductive LRes : Type where
  | done (stop : Bool)
  | lexc (s : Sig)
  deriving Repr, DecidableEq

/-- The tail of a walkabout frame after the children phase: if
call_depart is still set, dispatch_departure runs (and an exception it
raises escapes the frame in place of the normal return of stop). -/
def departPhase (V : Visitor) (l : Nat) (callDepart stop : Bool)
    (evs : List Ev) : List Ev × WRes :=
  if callDepart then
    (.vis l :: evs ++ [.dep l],
     if V.departSig l = .cont then .ret stop else .exc (V.departSig l))
  else
    (.vis l :: evs, .ret stop)

mutual

/-- Node.walkabout, translated handler by handler: dispatch_visit runs
first; SkipNode returns at once (no children, no depart); SkipDeparture
clears call_depart; an uncaught SkipSiblings from the visit escapes the
frame; SkipChildren skips the children but still departs; StopTraversal
sets the stop flag and still departs; otherwise the children run via
the loop, whose outcome is filtered by the frame's handlers
(SkipSiblings and SkipChildren are swallowed, StopTraversal sets stop,
SkipNode / SkipDeparture escape without the depart call). -/
def walkabout (V : Visitor) : VTree → List Ev × WRes
  | .node l cs =>
      match V.visitSig l with
      | .skipNode => ([.vis l], .ret false)
      | .skipSiblings => ([.vis l], .exc .skipSiblings)
      | .skipChildren => departPhase V l true false []
      | .stopT => departPhase V l true true []
      | vs =>
          let cd := vs ≠ Sig.skipDeparture
          let pr := walkList V cs
          match pr.2 with
          | .done stop => departPhase V l cd stop pr.1
          | .lexc .skipSiblings => departPhase V l cd false pr.1
          | .lexc .skipChildren => departPhase V l cd false pr.1
          | .lexc .stopT => departPhase V l cd true pr.1
          | .lexc e => (.vis l :: pr.1, .exc e)

/-- The children loop over the snapshot of the children list: a child
returning True sets stop and breaks; a child raising propagates out of
the loop. -/
def walkList (V : Visitor) : List VTree → List Ev × LRes
  | [] => ([], .done false)
  | c :: rest =>
      let pr := walkabout V c
      match pr.2 with
      | .ret true => (pr.1, .done true)
      | .ret false =>
          let pr2 := walkList V rest
          (pr.1 ++ pr2.1, pr2.2)
      | .exc s => (pr.1, .lexc s)

end

mutual

/-- Pre-order label sequence of the tree. -/
def preorder : VTree → List Nat
  | .node l cs => l :: preorderList cs

def preorderList : List VTree → List Nat
  | [] => []
  | c :: cs => preorder c ++ preorderList cs

end

mutual

/-- Labels of the proper ancestors of the node labelled n, root first
(none when n does not occur in the tree). -/
def chainTo (n : Nat) : VTree → Option (List Nat)
  | .node l cs =>
      if l = n then some []
      else (chainToList n cs).map (fun ch => l :: ch)

def chainToList (n : Nat) : List VTree → Option (List Nat)
  | [] => none
  | c :: cs =>
      match chainTo n c with
      | some ch => some ch
      | none => chainToList n cs

end

/-- Labels of the dispatch_visit events, in order. -/
def visitsOf (evs : List Ev) : List Nat :=
  evs.filterMap (fun e => match e with | .vis l => some l | .dep _ => none)

/-- Labels strictly after n in the pre-order sequence of the tree. -/
def afterInPreorder (n : Nat) (t : VTree) : List Nat :=
  ((preorder t).dropWhile (fun m => m ≠ n)).tail

/-- A three-node chain 1 - 2 - 3. -/
def chainTree : VTree := .node 1 [.node 2 [.node 3 []]]

/-- A visitor that raises StopTraversal when visiting node 3 and whose
other handlers return normally. -/
def stopAt3 : Visitor :=
  ⟨fun l => if l = 3 then .stopT else .cont, fun _ => .cont⟩

/-- A visitor that raises SkipDeparture when visiting node 2 and
StopTraversal when visiting node 3. -/
def skipDepAt2 : Visitor :=
  ⟨fun l => if l = 3 then .stopT else if l = 2 then .skipDeparture else .cont,
   fun _ => .cont⟩

/-- A tree where node 4 follows node 3 in pre-order but lives in a
different branch. -/
def forkTree : VTree := .node 1 [.node 2 [.node 3 []], .node 4 []]

/-- A visitor that raises StopTraversal when visiting node 3 and whose
depart handler for node 3 raises SkipChildren. -/
def departRaisesAt3 : Visitor :=
  ⟨fun l => if l = 3 then .stopT else .cont,
   fun l => if l = 3 then .skipChildren else .cont⟩

/- ============================================================ -/
/- Theorems                                                      -/
/- ============================================================ -/

theorem alookup_areplace_self {α : Type} (l : List (String × α)) (k : String)
    (v : α) (h : ahas l k = true) : alookup (areplace l k v) k = some v := by
  induction l with
  | nil => simp [ahas, alookup] at h
  | cons p rest ih =>
    by_cases hp : p.1 = k
    · simp [areplace, hp, alookup]
    · simp only [ahas, alookup, if_neg hp] at h
      simp only [areplace, if_neg hp, alookup, if_neg hp]
      exact ih h

theorem alookup_aset_self {α : Type} (l : List (String × α)) (k : String) (v : α) :
    alookup (aset l k v) k = some v := by
  unfold aset
  split
  case isTrue h => exact alookup_areplace_self l k v h
  case isFalse h =>
    induction l with
    | nil => simp [alookup]
    | cons p rest ih =>
      unfold ahas alookup at h
      by_cases hp : p.1 = k
      · simp [hp] at h
      · rw [if_neg hp] at h
        simp only [List.cons_append, alookup, if_neg hp]
        exact ih h

theorem alookup_areplace_ne {α : Type} (l : List (String × α)) (k k' : String)
    (v : α) (h : k' ≠ k) : alookup (areplace l k v) k' = alookup l k' := by
  induction l with
  | nil => simp [areplace]
  | cons p rest ih =>
    by_cases hp : p.1 = k
    · simp only [areplace, if_pos hp, alookup]
      rw [if_neg (fun hk => h hk.symm), if_neg (by rw [hp]; exact fun hk => h hk.symm)]
      exact ih
    · simp only [areplace, if_neg hp, alookup]
      by_cases hq : p.1 = k' <;> simp [hq]
      exact ih

theorem alookup_append_single_ne {α : Type} (l : List (String × α))
    (k k' : String) (v : α) (h : k' ≠ k) :
    alookup (l ++ [(k, v)]) k' = alookup l k' := by
  induction l with
  | nil =>
    simp only [List.nil_append, alookup]
    rw [if_neg (fun hk => h hk.symm)]
  | cons p rest ih =>
    simp only [List.cons_append, alookup]
    by_cases hq : p.1 = k' <;> simp [hq]
    exact ih

theorem alookup_append_single_present {α : Type} (l : List (String × α))
    (k k' : String) (v w : α) (h : alookup l k' = some w) :
    alookup (l ++ [(k, v)]) k' = some w := by
  induction l with
  | nil => simp [alookup] at h
  | cons p rest ih =>
    simp only [List.cons_append, alookup] at h ⊢
    by_cases hq : p.1 = k' <;> simp [hq] at h ⊢
    · exact h
    · exact ih h

theorem alookup_aset_ne {α : Type} (l : List (String × α)) (k k' : String) (v : α)
    (h : k' ≠ k) : alookup (aset l k v) k' = alookup l k' := by
  unfold aset
  split
  · exact alookup_areplace_ne l k k' v h
  · exact alookup_append_single_ne l k k' v h

theorem alookup_asetdefault_present {α : Type} (l : List (String × α))
    (k k' : String) (v w : α) (h : alookup l k' = some w) :
    alookup (asetdefault l k v) k' = some w := by
  unfold asetdefault
  split
  · exact h
  · exact alookup_append_single_present l k k' v w h

theorem alookup_asetdefault_absent {α : Type} (l : List (String × α))
    (k : String) (v : α) (h : alookup l k = none) :
    alookup (asetdefault l k v) k = some v := by
  unfold asetdefault ahas
  rw [h]
  simp only [Option.isSome_none, Bool.false_eq_true, if_false]
  induction l with
  | nil => simp [alookup]
  | cons p rest ih =>
    simp only [alookup] at h
    by_cases hq : p.1 = k
    · simp [hq] at h
    · rw [if_neg hq] at h
      simp only [List.cons_append, alookup, if_neg hq]
      exact ih h

theorem nlookup_nupdate_self (l : List (Nat × NodeData)) (r : Nat) (x n : NodeData)
    (h : nlookup l r = some x) : nlookup (nupdate l r n) r = some n := by
  induction l with
  | nil => simp [nlookup] at h
  | cons p rest ih =>
    by_cases hp : p.1 = r
    · simp [nupdate, hp, nlookup]
    · simp only [nlookup, if_neg hp] at h
      simp only [nupdate, if_neg hp, nlookup, if_neg hp]
      exact ih h

theorem nlookup_nupdate_ne (l : List (Nat × NodeData)) (r r' : Nat) (n : NodeData)
    (h : r' ≠ r) : nlookup (nupdate l r n) r' = nlookup l r' := by
  induction l with
  | nil => simp [nupdate]
  | cons p rest ih =>
    by_cases hp : p.1 = r
    · simp only [nupdate, if_pos hp, nlookup]
      rw [if_neg (fun hk => h hk.symm), if_neg (by rw [hp]; exact fun hk => h hk.symm)]
      exact ih
    · simp only [nupdate, if_neg hp, nlookup]
      by_cases hq : p.1 = r' <;> simp [hq]
      exact ih

theorem getNode_putNode_self (st : DocState) (r : Nat) (x n : NodeData)
    (h : getNode st r = some x) : getNode (putNode st r n) r = some n :=
  nlookup_nupdate_self st.store r x n h

theorem getNode_putNode_ne (st : DocState) (r r' : Nat) (n : NodeData)
    (h : r' ≠ r) : getNode (putNode st r n) r' = getNode st r' :=
  nlookup_nupdate_ne st.store r r' n h

theorem ahas_asetdefault_self {α : Type} (l : List (String × α)) (k : String)
    (v : α) : ahas (asetdefault l k v) k = true := by
  unfold ahas
  cases h : alookup l k with
  | none => rw [alookup_asetdefault_absent l k v h]; rfl
  | some w => rw [alookup_asetdefault_present l k k v w h]; rfl

theorem alookup_asetdefault_ne {α : Type} (l : List (String × α))
    (k k' : String) (v : α) (h : k' ≠ k) :
    alookup (asetdefault l k v) k' = alookup l k' := by
  unfold asetdefault
  split
  · rfl
  · exact alookup_append_single_ne l k k' v h

/-- Fields of the document state that the set_id registration loop never
touches, preservation of existing id bindings (first registrant wins),
registration of each listed id, and binding of fresh ids to the node. -/
theorem set_id_fold_inv (r : Nat) (idl : List String) (st : DocState) :
    (idl.foldl (set_id_step r) st).store = st.store ∧
    (idl.foldl (set_id_step r) st).nameids = st.nameids ∧
    (idl.foldl (set_id_step r) st).nametypes = st.nametypes ∧
    (∀ k w, alookup st.ids k = some w →
        alookup (idl.foldl (set_id_step r) st).ids k = some w) ∧
    (∀ i, i ∈ idl → (alookup st.ids i = none ∨ alookup st.ids i = some r) →
        alookup (idl.foldl (set_id_step r) st).ids i = some r) ∧
    (∀ i, i ∈ idl → ahas (idl.foldl (set_id_step r) st).ids i = true) := by
  induction idl generalizing st with
  | nil => exact ⟨rfl, rfl, rfl, fun k w h => h, fun i hi => absurd hi (by simp),
      fun i hi => absurd hi (by simp)⟩
  | cons i0 rest ih =>
    have hstep_ids : ∀ (acc : DocState) (i : String),
        (set_id_step r acc i).ids = asetdefault acc.ids i r := by
      intro acc i
      unfold set_id_step
      dsimp only
      split <;> rfl
    have hstep_rest : ∀ (acc : DocState) (i : String),
        (set_id_step r acc i).store = acc.store ∧
        (set_id_step r acc i).nameids = acc.nameids ∧
        (set_id_step r acc i).nametypes = acc.nametypes := by
      intro acc i
      unfold set_id_step
      dsimp only
      split <;> exact ⟨rfl, rfl, rfl⟩
    have hfold : (i0 :: rest).foldl (set_id_step r) st =
        rest.foldl (set_id_step r) (set_id_step r st i0) := rfl
    obtain ⟨ih1, ih2, ih3, ih4, ih5, ih6⟩ := ih (set_id_step r st i0)
    obtain ⟨hs1, hs2, hs3⟩ := hstep_rest st i0
    rw [hfold]
    refine ⟨by rw [ih1, hs1], by rw [ih2, hs2], by rw [ih3, hs3], ?_, ?_, ?_⟩
    · intro k w h
      exact ih4 k w (by rw [hstep_ids]; exact alookup_asetdefault_present st.ids i0 k r w h)
    · intro i hi hbind
      by_cases hii : i = i0
      · subst hii
        have : alookup (set_id_step r st i).ids i = some r := by
          rw [hstep_ids]
          rcases hbind with hb | hb
          · exact alookup_asetdefault_absent st.ids i r hb
          · exact alookup_asetdefault_present st.ids i i r r hb
        exact ih4 i r this
      · rcases List.mem_cons.mp hi with hc | hc
        · exact absurd hc hii
        · refine ih5 i hc ?_
          rw [hstep_ids, alookup_asetdefault_ne st.ids i0 i r hii]
          exact hbind
    · intro i hi
      by_cases hii : i = i0
      · subst hii
        have : ahas (set_id_step r st i).ids i = true := by
          rw [hstep_ids]; exact ahas_asetdefault_self st.ids i r
        unfold ahas at this ⊢
        cases hv : alookup (set_id_step r st i).ids i with
        | none => rw [hv] at this; simp at this
        | some w => rw [ih4 i w hv]; rfl
      · rcases List.mem_cons.mp hi with hc | hc
        · exact absurd hc hii
        · exact ih6 i hc

/-- C3, amended: document.set_id on a node with non-empty node.ids list
registers every listed id with first-registrant-wins semantics (an
existing binding in document.ids is never overwritten, the node is bound
to every id not previously taken), never raises (duplicates only produce
diagnostics), and returns the LAST id of the node's ids list. -/
theorem set_id_registers_and_returns_last (st : DocState) (r : Nat)
    (node : NodeData) (last : String) (hnode : getNode st r = some node)
    (hlast : node.idsAttr.getLast? = some last) :
    set_id st r = some (node.idsAttr.foldl (set_id_step r) st, last) ∧
    (∀ k w, alookup st.ids k = some w →
        alookup (node.idsAttr.foldl (set_id_step r) st).ids k = some w) ∧
    (∀ i, i ∈ node.idsAttr → ahas (node.idsAttr.foldl (set_id_step r) st).ids i = true) ∧
    (∀ i, i ∈ node.idsAttr → alookup st.ids i = none →
        alookup (node.idsAttr.foldl (set_id_step r) st).ids i = some r) ∧
    (node.idsAttr.foldl (set_id_step r) st).store = st.store := by
  obtain ⟨h1, _, _, h4, h5, h6⟩ := set_id_fold_inv r node.idsAttr st
  refine ⟨?_, h4, h6, fun i hi hn => h5 i hi (Or.inl hn), h1⟩
  unfold set_id
  rw [hnode]
  simp only [Option.bind_eq_bind, Option.some_bind, hlast, Option.pure_def]

/-- C3 counterexample: a node carrying the ids a and b.  set_id returns
b, the last id of the list, not the first id a as the claim states. -/
theorem set_id_returns_last_not_first_counterexample :
    (set_id twoIdsState 0).map Prod.snd = some "b" ∧
    (getNode twoIdsState 0).map NodeData.idsAttr = some ["a", "b"] ∧
    (["a", "b"] : List String).head? = some "a" ∧ ("b" : String) ≠ "a" := by
  refine ⟨by rfl, by rfl, by rfl, by decide⟩

/-- C3 witness: the amended theorem applied to the concrete two-id state. -/
theorem set_id_registers_and_returns_last_witness :
    getNode twoIdsState 0 = some twoIdsNode ∧
    twoIdsNode.idsAttr.getLast? = some "b" ∧
    (set_id twoIdsState 0 =
      some (twoIdsNode.idsAttr.foldl (set_id_step 0) twoIdsState, "b") ∧
     ahas (twoIdsNode.idsAttr.foldl (set_id_step 0) twoIdsState).ids "a" = true ∧
     ahas (twoIdsNode.idsAttr.foldl (set_id_step 0) twoIdsState).ids "b" = true) := by
  have h := set_id_registers_and_returns_last twoIdsState 0 twoIdsNode "b" rfl rfl
  exact ⟨rfl, rfl, h.1, h.2.2.1 "a" (by decide), h.2.2.1 "b" (by decide)⟩

/-- C1: registering the name x as explicit on a second distinct target
when it is already registered explicit (old id assigned, no refuri
anywhere, so the identical-refuri exception cannot apply).  All the
claimed state effects hold: both ids stay registered in document.ids,
nameids maps x to None (unresolved), both nodes have x moved from names
to dupnames — but the diagnostic the reporter records has severity
level 2 (warning), not level 3 (error) as the claim and the state
transition table in the set_name_id_map docstring state. -/
theorem dup_explicit_explicit_effects_but_level2 :
    set_duplicate_name_id dupExpState 1 "id2" "x" true =
      some ⟨[(0, ⟨[], ["x"], ["id1"], none, true⟩),
             (1, ⟨[], ["x"], ["id2"], none, true⟩)],
            [("id1", 0), ("id2", 1)], [("x", none)], [("x", true)], [2]⟩ ∧
    (set_duplicate_name_id dupExpState 1 "id2" "x" true).map DocState.messages
      ≠ some [3] := by
  exact ⟨by decide, by decide⟩

/-- C2: prior explicit, incoming explicit, old id assigned, new node has
a refuri, old node still has names and an equal refuri.  The old
registration is kept unchanged (nameids still maps the name to the old
id, the old node is untouched), only the new node is invalidated (the
name moves from its names list to its dupnames list), document.ids is
untouched, and exactly one diagnostic is created, of severity
level 1 (informational). -/
theorem dup_explicit_identical_refuri_keeps_old (st : DocState)
    (r oref : Nat) (id name oid u : String) (node old_node : NodeData)
    (hnode : getNode st r = some node)
    (href : node.refuri = some u)
    (hnames : name ∈ node.names)
    (hold : alookup st.nameids name = some (some oid))
    (htype : alookup st.nametypes name = some true)
    (hoid : alookup st.ids oid = some oref)
    (holdnode : getNode st oref = some old_node)
    (honames : old_node.names ≠ [])
    (horef : old_node.refuri = some u)
    (hdistinct : oref ≠ r) :
    set_duplicate_name_id st r id name true =
      some (putNode { st with nametypes := aset st.nametypes name true,
                              messages := st.messages ++ [1] } r
              { node with names := node.names.erase name,
                          dupnames := node.dupnames ++ [name],
                          referenced := true }) ∧
    ∀ st', set_duplicate_name_id st r id name true = some st' →
      alookup st'.nameids name = some (some oid) ∧
      alookup st'.nametypes name = some true ∧
      st'.ids = st.ids ∧
      getNode st' oref = some old_node ∧
      getNode st' r = some { node with names := node.names.erase name,
                                       dupnames := node.dupnames ++ [name],
                                       referenced := true } ∧
      st'.messages = st.messages ++ [1] := by
  have hrun : set_duplicate_name_id st r id name true =
      some (putNode { st with nametypes := aset st.nametypes name true,
                              messages := st.messages ++ [1] } r
              { node with names := node.names.erase name,
                          dupnames := node.dupnames ++ [name],
                          referenced := true }) := by
    have hnode' : nlookup st.store r = some node := hnode
    have holdnode' : nlookup st.store oref = some old_node := holdnode
    unfold set_duplicate_name_id dupnameRef dupnameData getNode
    simp only [Option.bind_eq_bind, Option.some_bind, hnode', hold, htype, href,
      Bool.true_or, Bool.or_true, if_true]
    simp only [hoid, holdnode', Option.some_bind, honames, horef, ne_eq,
      not_false_eq_true, decide_True, decide_eq_true_eq, Bool.and_self,
      Bool.true_and, Bool.and_true, eq_self_iff_true, if_true,
      gt_iff_lt, lt_self_iff_false, if_false, if_pos hnames, Bool.not_true,
      Bool.false_or, Bool.false_and, Bool.and_false, Bool.false_eq_true,
      Option.isSome_some, Option.pure_def, Option.some_bind]
    simp only [hnode', Option.some_bind, if_pos hnames, href]
  refine ⟨hrun, fun st' hst' => ?_⟩
  rw [hrun] at hst'
  obtain rfl : _ = st' := Option.some_injective _ hst'
  refine ⟨?_, ?_, rfl, ?_, ?_, rfl⟩
  · exact hold ▸ rfl
  · exact alookup_aset_self st.nametypes name true
  · rw [getNode_putNode_ne _ r oref _ hdistinct]
    exact holdnode
  · exact getNode_putNode_self _ r node _ hnode

/-- C2 witness: the identical-refuri theorem applied to the concrete
scenario state. -/
theorem dup_explicit_identical_refuri_witness :
    getNode sameUriState 1 = some sameUriNew ∧
    sameUriNew.refuri = some "http://a" ∧
    "x" ∈ sameUriNew.names ∧
    alookup sameUriState.nameids "x" = some (some "id1") ∧
    alookup sameUriState.nametypes "x" = some true ∧
    alookup sameUriState.ids "id1" = some 0 ∧
    getNode sameUriState 0 = some sameUriOld ∧
    sameUriOld.names ≠ [] ∧
    sameUriOld.refuri = some "http://a" ∧
    (0 : Nat) ≠ 1 ∧
    (∀ st', set_duplicate_name_id sameUriState 1 "id2" "x" true = some st' →
      alookup st'.nameids "x" = some (some "id1") ∧
      alookup st'.nametypes "x" = some true ∧
      st'.ids = sameUriState.ids ∧
      getNode st' 0 = some sameUriOld ∧
      getNode st' 1 = some { sameUriNew with
                               names := sameUriNew.names.erase "x",
                               dupnames := sameUriNew.dupnames ++ ["x"],
                               referenced := true } ∧
      st'.messages = sameUriState.messages ++ [1]) :=
  ⟨rfl, rfl, by decide, by decide, by decide, by decide, rfl, by decide, rfl,
   by decide,
   (dup_explicit_identical_refuri_keeps_old sameUriState 1 0 "id2" "x" "id1"
      "http://a" sameUriNew sameUriOld rfl rfl (by decide) (by decide)
      (by decide) (by decide) rfl (by decide) rfl (by decide)).2⟩

theorem setup_child_adopts (e : MutElem) (c : MutNode) :
    Adopted e c (setup_child e c) := by
  unfold Adopted setup_child
  cases hd : e.document with
  | none => simp
  | some d =>
    refine ⟨rfl, ?_, by simp⟩
    intro d' hd'
    obtain rfl : d = d' := by injection hd'
    refine ⟨rfl, ?_, ?_, ?_, ?_⟩ <;> intros <;> simp_all

theorem Element_append_fields (e : MutElem) (a : MutNode) :
    (Element_append e a).label = e.label ∧
    (Element_append e a).document = e.document ∧
    (Element_append e a).children = e.children ++ [setup_child e a] :=
  ⟨rfl, rfl, rfl⟩

theorem setup_child_append_invariant (e : MutElem) (a : MutNode) :
    setup_child (Element_append e a) = setup_child e := by
  funext c
  unfold setup_child Element_append
  rfl

theorem Element_extend_children (e : MutElem) (items : List MutNode) :
    (Element_extend e items).children = e.children ++ items.map (setup_child e) := by
  induction items generalizing e with
  | nil => simp [Element_extend]
  | cons a rest ih =>
    show (Element_extend (Element_append e a) rest).children = _
    rw [ih, setup_child_append_invariant]
    simp [Element_append]

/-- C8: every child-list mutation path applies the adoption routine
(setup_child) to each inserted node before it is placed into the
children list — the node placed in the list is exactly the setup_child
image of the argument, which carries the new parent link and the
propagated document / source / line — and the nodes already present
are left in place. -/
theorem mutations_adopt_children (e : MutElem) (item : MutNode)
    (items : List MutNode) (index i j k : Nat)
    (hk : k < e.children.length) :
    Adopted e item (setup_child e item) ∧
    (∀ c, c ∈ items → Adopted e c (setup_child e c)) ∧
    (Element_append e item).children = e.children ++ [setup_child e item] ∧
    (Element_extend e items).children = e.children ++ items.map (setup_child e) ∧
    (Element_insert_node e index item).children =
      e.children.take index ++ [setup_child e item] ++ e.children.drop index ∧
    (Element_insert_list e index items).children =
      e.children.take (min index e.children.length) ++
        items.map (setup_child e) ++
        e.children.drop (min index e.children.length) ∧
    (Element_setitem_slice e i j items).children =
      e.children.take (min i e.children.length) ++
        items.map (setup_child e) ++
        e.children.drop (max (min i e.children.length) (min j e.children.length)) ∧
    Element_setitem_index e k item =
      some { e with children := e.children.set k (setup_child e item) } ∧
    (Element_replace_list e index items).children =
      e.children.take (min index e.children.length) ++
        items.map (setup_child e) ++
        e.children.drop (max (min index e.children.length)
                             (min (index + 1) e.children.length)) := by
  refine ⟨setup_child_adopts e item, fun c _ => setup_child_adopts e c, rfl,
    Element_extend_children e items, ?_, ?_, rfl, ?_, rfl⟩
  · show pyInsertAt e.children index (setup_child e item) = _
    unfold pyInsertAt
    rfl
  · show pySetSlice e.children index index (items.map (setup_child e)) = _
    unfold pySetSlice
    simp [Nat.max_self]
  · unfold Element_setitem_index
    rw [if_pos hk]

/-- C8 witness: the mutation theorem applied to a concrete element that
belongs to a document, with one child already present. -/
theorem mutations_adopt_children_witness :
    (0 : Nat) < (MutElem.mk 7 (some ⟨1, some "f.rst", some 3⟩)
        [⟨9, some 7, none, none, none⟩]).children.length ∧
    Adopted (MutElem.mk 7 (some ⟨1, some "f.rst", some 3⟩)
        [⟨9, some 7, none, none, none⟩])
      ⟨5, none, none, none, none⟩
      (setup_child (MutElem.mk 7 (some ⟨1, some "f.rst", some 3⟩)
        [⟨9, some 7, none, none, none⟩]) ⟨5, none, none, none, none⟩) :=
  ⟨by decide,
   (mutations_adopt_children
      (MutElem.mk 7 (some ⟨1, some "f.rst", some 3⟩)
        [⟨9, some 7, none, none, none⟩])
      ⟨5, none, none, none, none⟩ [] 0 0 0 0 (by decide)).1⟩

/-- The filtering transform preserves every node's tag and level. -/
theorem FilterMessages_apply_tag_level (rl : Nat) (t : MTree) :
    (FilterMessages_apply rl t).tag = t.tag ∧
    (FilterMessages_apply rl t).level = t.level := by
  cases t with
  | node tg lv cs => rw [FilterMessages_apply]; exact ⟨rfl, rfl⟩

theorem belowThreshold_FilterMessages_apply (rl : Nat) (t : MTree) :
    belowThreshold rl (FilterMessages_apply rl t) = belowThreshold rl t := by
  obtain ⟨h1, h2⟩ := FilterMessages_apply_tag_level rl t
  unfold belowThreshold
  rw [h1, h2]

mutual

theorem fm_no_bad (rl : Nat) : ∀ (t : MTree),
    allDescBelow (fun c => !belowThreshold rl c) (FilterMessages_apply rl t) = true
  | .node tg lv cs => by
      rw [FilterMessages_apply, allDescBelow]
      exact fm_no_bad_list rl cs

theorem fm_no_bad_list (rl : Nat) : ∀ (cs : List MTree),
    allDescList (fun c => !belowThreshold rl c) (fmPrune rl cs) = true
  | [] => by rw [fmPrune]; rw [allDescList]
  | c :: cs => by
      rw [fmPrune]
      by_cases hb : belowThreshold rl c
      · rw [if_pos hb]
        rw [List.nil_append]
        exact fm_no_bad_list rl cs
      · rw [if_neg hb]
        rw [List.cons_append, List.nil_append, allDescList]
        rw [belowThreshold_FilterMessages_apply rl c]
        have hb' : belowThreshold rl c = false := Bool.eq_false_iff.mpr hb
        rw [hb']
        rw [fm_no_bad rl c, fm_no_bad_list rl cs]
        rfl

end

mutual

theorem fm_idem (rl : Nat) : ∀ (t : MTree),
    FilterMessages_apply rl (FilterMessages_apply rl t) = FilterMessages_apply rl t
  | .node tg lv cs => by
      rw [FilterMessages_apply, FilterMessages_apply]
      rw [fm_idem_list rl cs]

theorem fm_idem_list (rl : Nat) : ∀ (cs : List MTree),
    fmPrune rl (fmPrune rl cs) = fmPrune rl cs
  | [] => by rw [fmPrune]; rw [fmPrune]
  | c :: cs => by
      rw [fmPrune]
      by_cases hb : belowThreshold rl c
      · rw [if_pos hb, List.nil_append]
        exact fm_idem_list rl cs
      · rw [if_neg hb, List.cons_append, List.nil_append, fmPrune]
        rw [belowThreshold_FilterMessages_apply rl c]
        rw [if_neg hb, fm_idem rl c, fm_idem_list rl cs]
        rfl

end

/-- C9: after one FilterMessages.apply pass, no system_message node
below the report level remains anywhere in the document (the root is a
document node, not a system_message), so a second pass rewrites
nothing: the transform is idempotent. -/
theorem FilterMessages_idempotent (rl : Nat) (t : MTree)
    (hroot : belowThreshold rl t = false) :
    belowThreshold rl (FilterMessages_apply rl t) = false ∧
    allDescBelow (fun c => !belowThreshold rl c) (FilterMessages_apply rl t) = true ∧
    FilterMessages_apply rl (FilterMessages_apply rl t) = FilterMessages_apply rl t :=
  ⟨by rw [belowThreshold_FilterMessages_apply]; exact hroot,
   fm_no_bad rl t, fm_idem rl t⟩

/-- C9 witness: the idempotence theorem applied to a concrete document
holding one below-threshold message, one kept message, and a nested
below-threshold message, at report level 2. -/
theorem FilterMessages_idempotent_witness :
    belowThreshold 2 (MTree.node "document" 0
      [MTree.node "system_message" 1 [],
       MTree.node "paragraph" 0 [MTree.node "system_message" 3
          [MTree.node "system_message" 0 []]]]) = false ∧
    (belowThreshold 2 (FilterMessages_apply 2 (MTree.node "document" 0
      [MTree.node "system_message" 1 [],
       MTree.node "paragraph" 0 [MTree.node "system_message" 3
          [MTree.node "system_message" 0 []]]])) = false ∧
     allDescBelow (fun c => !belowThreshold 2 c)
       (FilterMessages_apply 2 (MTree.node "document" 0
         [MTree.node "system_message" 1 [],
          MTree.node "paragraph" 0 [MTree.node "system_message" 3
             [MTree.node "system_message" 0 []]]])) = true ∧
     FilterMessages_apply 2 (FilterMessages_apply 2 (MTree.node "document" 0
       [MTree.node "system_message" 1 [],
        MTree.node "paragraph" 0 [MTree.node "system_message" 3
           [MTree.node "system_message" 0 []]]])) =
       FilterMessages_apply 2 (MTree.node "document" 0
         [MTree.node "system_message" 1 [],
          MTree.node "paragraph" 0 [MTree.node "system_message" 3
             [MTree.node "system_message" 0 []]]])) :=
  ⟨by decide,
   FilterMessages_idempotent 2 (MTree.node "document" 0
     [MTree.node "system_message" 1 [],
      MTree.node "paragraph" 0 [MTree.node "system_message" 3
         [MTree.node "system_message" 0 []]]]) (by decide)⟩

/-- C10: every node is truthy regardless of content — Node.__bool__
returns True unconditionally, also for an Element with no children and
no attributes — so emptiness is only observable through
Element.__len__, the length of the children list. -/
theorem nodes_always_truthy (n : MutNode) (e : MutElem) :
    Node_bool n = true ∧ Element_bool e = true ∧
    (Element_len e = 0 ↔ e.children = []) :=
  ⟨rfl, rfl, List.length_eq_zero⟩

/-- C5: for the content model (list_item, '+') — declared by
bullet_list — two list_item children validate with zero leftover
children, and an empty children list raises a ValidationError reporting
a missing required child of type list_item. -/
theorem bullet_list_plus_model_validates :
    content_model .bullet_list = [(Category.cls .list_item, '+')] ∧
    (∀ (a1 a2 : List (String × AttrVal)) (c1 c2 : List DNode),
      validate_content .bullet_list (content_model .bullet_list)
        [.elem .list_item a1 c1, .elem .list_item a2 c2] = .ok []) ∧
    validate_content .bullet_list (content_model .bullet_list) [] =
      .error (.missingChild .bullet_list "list_item") := by
  refine ⟨rfl, ?_, rfl⟩
  intro a1 a2 c1 c2
  rfl

/-- C4 counterexample: a bullet_list with an invalid attribute foo and
an empty children list, which also violates the (list_item)+ content
model.  validate raises only the attribute diagnostic; the structural
missing-child error, which validate_content reports for the same node,
is not part of the raised diagnostic. -/
theorem validate_attr_error_hides_content_error :
    Element_validate uniExample badBullet =
      .error (.invalidAttributes .bullet_list
        ["Attribute \"foo\" not one of \"ids\", \"classes\", \"names\", \"dupnames\", \"source\", \"bullet\"."]) ∧
    validate_content .bullet_list (content_model .bullet_list) [] =
      .error (.missingChild .bullet_list "list_item") ∧
    VError.invalidAttributes .bullet_list
        ["Attribute \"foo\" not one of \"ids\", \"classes\", \"names\", \"dupnames\", \"source\", \"bullet\"."] ≠
      VError.missingChild .bullet_list "list_item" := by
  refine ⟨?_, rfl, by decide⟩
  rw [Element_validate.eq_def]
  rfl

/-- C4, amended: one validate call collects all attribute errors of the
node into a single diagnostic, but raises it before the content model
is checked — a node with both attribute and content-model violations
has only its attribute errors reported; the content-model error is
raised (for the first offending position) only when every attribute is
valid. -/
theorem validate_attr_errors_preempt_content_errors
    (uni : String → String) (tag : DTag) (attrs : List (String × AttrVal))
    (children : List DNode) :
    (∀ e, validate_attributes uni tag attrs = .error e →
      Element_validate uni (.elem tag attrs children) = .error e) ∧
    (∀ attrs2 e, validate_attributes uni tag attrs = .ok attrs2 →
      validate_content tag (content_model tag) children = .error e →
      Element_validate uni (.elem tag attrs children) = .error e) := by
  constructor
  · intro e he
    rw [Element_validate.eq_def]
    dsimp only
    unfold validate_node
    rw [he]
    rfl
  · intro attrs2 e ha hc
    rw [Element_validate.eq_def]
    dsimp only
    unfold validate_node
    rw [ha, hc]
    rfl

/-- C4 witness: the amended theorem applied to the bullet_list with a
bad attribute (attribute branch) and to the attribute-clean empty
bullet_list (content branch). -/
theorem validate_attr_errors_preempt_content_errors_witness :
    validate_attributes uniExample .bullet_list
        [("ids", .ls []), ("classes", .ls []), ("names", .ls []),
         ("dupnames", .ls []), ("foo", .s "bar")] =
      .error (.invalidAttributes .bullet_list
        ["Attribute \"foo\" not one of \"ids\", \"classes\", \"names\", \"dupnames\", \"source\", \"bullet\"."]) ∧
    Element_validate uniExample badBullet =
      .error (.invalidAttributes .bullet_list
        ["Attribute \"foo\" not one of \"ids\", \"classes\", \"names\", \"dupnames\", \"source\", \"bullet\"."]) ∧
    validate_attributes uniExample .bullet_list
        [("ids", .ls []), ("classes", .ls []), ("names", .ls []),
         ("dupnames", .ls [])] =
      .ok [("ids", .ls []), ("classes", .ls []), ("names", .ls []),
           ("dupnames", .ls [])] ∧
    validate_content .bullet_list (content_model .bullet_list) [] =
      .error (.missingChild .bullet_list "list_item") ∧
    Element_validate uniExample emptyBullet =
      .error (.missingChild .bullet_list "list_item") :=
  ⟨rfl,
   (validate_attr_errors_preempt_content_errors uniExample .bullet_list
      [("ids", .ls []), ("classes", .ls []), ("names", .ls []),
       ("dupnames", .ls []), ("foo", .s "bar")] []).1 _ rfl,
   rfl, rfl,
   (validate_attr_errors_preempt_content_errors uniExample .bullet_list
      [("ids", .ls []), ("classes", .ls []), ("names", .ls []),
       ("dupnames", .ls [])] []).2 _ _ rfl rfl⟩

theorem isLowAlnum_ne_hyphen (c : Char) (h : isLowAlnum c = true) : c ≠ '-' :=
  fun hc => absurd h (by rw [hc]; decide)

theorem isLowAlnum_not_digitOrHyphen_alpha (c : Char)
    (h1 : isLowAlnum c = true) (h2 : isDigitOrHyphen c = false) :
    isLowAlpha c = true := by
  simp only [isLowAlnum, isDigitOrHyphen, isLowAlpha, Bool.or_eq_true,
    Bool.and_eq_true, decide_eq_true_eq, Bool.or_eq_false_iff,
    Bool.and_eq_false_iff, decide_eq_false_iff_not] at *
  omega

theorem dfaStep_zero (c : Char) :
    dfaStep 0 c = if isLowAlpha c = true then 1 else 3 := rfl

theorem dfaStep_one (c : Char) :
    dfaStep 1 c = if isLowAlnum c = true then 1 else if c = '-' then 2 else 3 := rfl

theorem dfaStep_two (c : Char) :
    dfaStep 2 c = if isLowAlnum c = true then 1 else 3 := rfl

theorem collapseNonId_mem (l : List Char) : ∀ c ∈ collapseNonId l,
    isLowAlnum c = true ∨ c = '-' := by
  induction l with
  | nil => simp [collapseNonId]
  | cons c cs ih =>
    intro x hx
    rw [collapseNonId] at hx
    by_cases hc : isLowAlnum c = true
    · rw [if_pos hc] at hx
      rcases List.mem_cons.mp hx with rfl | hx
      · exact Or.inl hc
      · exact ih x hx
    · rw [if_neg hc] at hx
      dsimp only at hx
      split at hx
      · exact ih x hx
      · rcases List.mem_cons.mp hx with rfl | hx
        · exact Or.inr rfl
        · exact ih x hx

theorem collapseNonId_chain (l : List Char) :
    (collapseNonId l).Chain' (fun a b => ¬(a = '-' ∧ b = '-')) := by
  induction l with
  | nil => simp [collapseNonId]
  | cons c cs ih =>
    rw [collapseNonId]
    by_cases hc : isLowAlnum c = true
    · rw [if_pos hc, List.chain'_cons']
      exact ⟨fun b _ hb => absurd hb.1 (isLowAlnum_ne_hyphen c hc), ih⟩
    · rw [if_neg hc]
      dsimp only
      split
      · exact ih
      · rename_i hhd
        rw [List.chain'_cons']
        refine ⟨fun b hb hcontra => ?_, ih⟩
        rw [hcontra.2] at hb
        exact hhd hb

theorem stripAtEnds_within (l : List Char) : stripAtEnds l <:+: l := by
  unfold stripAtEnds
  exact List.IsInfix.trans
    (List.IsPrefix.isInfix (List.rdropWhile_prefix _ _))
    (List.IsSuffix.isInfix (List.dropWhile_suffix _))

/-- Acceptance of the automaton from state 1 for any hyphen-and-alnum
word with no double hyphen and no trailing hyphen. -/
theorem dfa_accept_from_one : ∀ (l : List Char),
    (∀ c ∈ l, isLowAlnum c = true ∨ c = '-') →
    l.Chain' (fun a b => ¬(a = '-' ∧ b = '-')) →
    l.getLast? ≠ some '-' →
    l.foldl dfaStep 1 = 1
  | [], _, _, _ => rfl
  | [c], hmem, _, hlast => by
    have hc : isLowAlnum c = true := by
      rcases hmem c (by simp) with h | h
      · exact h
      · exact absurd (by rw [h]; rfl) hlast
    show dfaStep 1 c = 1
    rw [dfaStep_one, if_pos hc]
  | c :: d :: rest, hmem, hchain, hlast => by
    have hch := List.chain'_cons.mp hchain
    rcases hmem c (by simp) with hc | hc
    · have h1 : dfaStep 1 c = 1 := by rw [dfaStep_one, if_pos hc]
      show List.foldl dfaStep (dfaStep 1 c) (d :: rest) = 1
      rw [h1]
      exact dfa_accept_from_one (d :: rest)
        (fun x hx => hmem x (List.mem_cons_of_mem c hx)) hch.2
        (by rwa [List.getLast?_cons_cons] at hlast)
    · have h1 : dfaStep 1 c = 2 := by
        rw [dfaStep_one, hc]
        decide
      have hd : isLowAlnum d = true := by
        rcases hmem d (by simp) with h | h
        · exact h
        · exact absurd ⟨hc, h⟩ hch.1
      have h2 : dfaStep 2 d = 1 := by rw [dfaStep_two, if_pos hd]
      show List.foldl dfaStep (dfaStep (dfaStep 1 c) d) rest = 1
      rw [h1, h2]
      cases hrest : rest with
      | nil => rfl
      | cons e res =>
        rw [← hrest]
        refine dfa_accept_from_one rest
          (fun x hx => hmem x (by simp [hx])) ?_ ?_
        · exact hch.2.tail
        · rw [List.getLast?_cons_cons] at hlast
          rw [hrest] at hlast ⊢
          rwa [List.getLast?_cons_cons] at hlast

set_option maxHeartbeats 2000000 in
/-- C6: make_id always produces either the empty string or a string
accepted by the automaton of [a-z](-?[a-z0-9]+)* — for EVERY behaviour
of the lowercasing / transliteration / NFKD prefix of the pipeline —
and on the spec's example string (with the modelled Unicode prefix) it
produces dash-and-unicode, with diacritics stripped and the whitespace
and punctuation run collapsed to one hyphen. -/
theorem make_id_empty_or_matches :
    (∀ (uni : String → String) (s : String),
      make_id uni s = "" ∨ idRegexAccept (make_id uni s) = true) ∧
    make_id uniExample "Dash -- and Ünïcödé" = "dash-and-unicode" ∧
    idRegexAccept "dash-and-unicode" = true := by
  refine ⟨?_, by decide, by decide⟩
  intro uni s
  unfold make_id
  set inner := collapseNonId (splitJoin (asciiIgnore ((uni s).data))) with hinner
  cases hm : stripAtEnds inner with
  | nil => exact Or.inl rfl
  | cons c rest =>
    refine Or.inr ?_
    have hsub : ∀ x ∈ c :: rest, isLowAlnum x = true ∨ x = '-' := by
      intro x hx
      exact collapseNonId_mem _ x ((hm ▸ stripAtEnds_within inner).mem hx)
    have hchain : (c :: rest).Chain' (fun a b => ¬(a = '-' ∧ b = '-')) := by
      rw [← hm]
      exact List.Chain'.infix (collapseNonId_chain _) (stripAtEnds_within inner)
    have hlast : (c :: rest).getLast? ≠ some '-' := by
      have hne : stripAtEnds inner ≠ [] := by rw [hm]; simp
      have := List.rdropWhile_last_not (fun x => x = '-')
        (inner.dropWhile isDigitOrHyphen)
        (by unfold stripAtEnds at hne; exact hne)
      simp only [decide_eq_true_eq] at this
      intro hcontra
      apply this
      have hLeq : (stripAtEnds inner).getLast hne =
          ((inner.dropWhile isDigitOrHyphen).rdropWhile (fun x => x = '-')).getLast
            (by unfold stripAtEnds at hne; exact hne) := by
        congr 1
      rw [← hLeq]
      rw [List.getLast_eq_iff_getLast?_eq_some] at *
      rw [hm]
      exact hcontra
    have hhead : isDigitOrHyphen c = false := by
      have hpre := List.rdropWhile_prefix (fun x => x = '-')
        (inner.dropWhile isDigitOrHyphen)
      rw [show (inner.dropWhile isDigitOrHyphen).rdropWhile (fun x => x = '-') =
            stripAtEnds inner from rfl, hm] at hpre
      obtain ⟨t, ht⟩ := hpre
      have hcons : inner.dropWhile isDigitOrHyphen = c :: (rest ++ t) := by
        rw [← ht]; simp
      have h2 := List.head_dropWhile_not isDigitOrHyphen inner
        (by rw [hcons]; simp)
      simp only [hcons, List.head_cons, Bool.not_eq_true] at h2
      exact h2
    have hcalpha : isLowAlpha c = true := by
      rcases hsub c (by simp) with h | h
      · exact isLowAlnum_not_digitOrHyphen_alpha c h hhead
      · rw [h] at hhead
        exact absurd hhead (by decide)
    unfold idRegexAccept
    rw [decide_eq_true_eq]
    show (List.foldl dfaStep (dfaStep 0 c) rest) = 1
    have h0 : dfaStep 0 c = 1 := by rw [dfaStep_zero, if_pos hcalpha]
    rw [h0]
    refine dfa_accept_from_one rest (fun x hx => hsub x (by simp [hx])) ?_ ?_
    · exact (List.chain'_cons'.mp hchain).2
    · cases hrest : rest with
      | nil => simp
      | cons e res =>
        rw [hrest, List.getLast?_cons_cons] at hlast
        exact hlast

theorem visitsOf_append (a b : List Ev) :
    visitsOf (a ++ b) = visitsOf a ++ visitsOf b := by
  unfold visitsOf
  exact List.filterMap_append a b _

theorem visitsOf_vis_cons (l : Nat) (evs : List Ev) :
    visitsOf (.vis l :: evs) = l :: visitsOf evs := rfl

theorem visitsOf_dep (l : Nat) : visitsOf [.dep l] = [] := rfl

theorem mem_visitsOf (m : Nat) (evs : List Ev) (h : Ev.vis m ∈ evs) :
    m ∈ visitsOf evs := by
  unfold visitsOf
  exact List.mem_filterMap.mpr ⟨.vis m, h, rfl⟩

/-- The event list of one walkabout frame has one of four shapes: the
visit alone (SkipNode or an uncaught SkipSiblings from the visit), visit
and depart with no children phase (SkipChildren / StopTraversal from the
visit), visit plus the children events without the depart (escaping
exception or suppressed departure), or visit, children events and
depart. -/
theorem walkabout_events_shape (V : Visitor) (l : Nat) (cs : List VTree) :
    (walkabout V (.node l cs)).1 = [.vis l] ∨
    (walkabout V (.node l cs)).1 = [.vis l, .dep l] ∨
    (walkabout V (.node l cs)).1 = .vis l :: (walkList V cs).1 ∨
    (walkabout V (.node l cs)).1 = .vis l :: (walkList V cs).1 ++ [.dep l] := by
  rw [walkabout]
  cases V.visitSig l
  case cont =>
    cases h2 : (walkList V cs).2 with
    | done stop => simp [h2, departPhase]
    | lexc e => cases e <;> simp [h2, departPhase]
  case skipDeparture =>
    cases h2 : (walkList V cs).2 with
    | done stop => simp [h2, departPhase]
    | lexc e => cases e <;> simp [h2, departPhase]
  all_goals simp [departPhase]

mutual

theorem visits_sublist (V : Visitor) : ∀ (t : VTree),
    List.Sublist (visitsOf (walkabout V t).1) (preorder t)
  | .node l cs => by
    rcases walkabout_events_shape V l cs with h | h | h | h <;>
      rw [preorder, h]
    · exact (List.nil_sublist _).cons₂ l
    · exact (List.nil_sublist _).cons₂ l
    · rw [visitsOf_vis_cons]
      exact (visits_sublist_forest V cs).cons₂ l
    · rw [show Ev.vis l :: (walkList V cs).1 ++ [Ev.dep l] =
            Ev.vis l :: ((walkList V cs).1 ++ [Ev.dep l]) from rfl,
          visitsOf_vis_cons, visitsOf_append, visitsOf_dep, List.append_nil]
      exact (visits_sublist_forest V cs).cons₂ l

theorem visits_sublist_forest (V : Visitor) : ∀ (cs : List VTree),
    List.Sublist (visitsOf (walkList V cs).1) (preorderList cs)
  | [] => by
    rw [walkList, preorderList]
    exact List.Sublist.refl []
  | c :: rest => by
    rw [walkList, preorderList]
    have h1 := visits_sublist V c
    have h2 := visits_sublist_forest V rest
    dsimp only
    cases (walkabout V c).2 with
    | ret stop =>
      cases stop with
      | true => exact h1.trans (List.sublist_append_left _ _)
      | false =>
        dsimp only
        rw [visitsOf_append]
        exact List.Sublist.append h1 h2
    | exc s => exact h1.trans (List.sublist_append_left _ _)

end

mutual

theorem chainTo_isSome_iff (n : Nat) : ∀ (t : VTree),
    (chainTo n t).isSome = true ↔ n ∈ preorder t
  | .node l cs => by
    rw [chainTo, preorder]
    by_cases hl : l = n
    · subst hl
      simp
    · rw [if_neg hl]
      have hnl : ¬ n = l := fun h => hl h.symm
      cases hc : chainToList n cs with
      | some ch =>
        have hmem := (chainToList_isSome_iff n cs).mp (by rw [hc]; rfl)
        simp [List.mem_cons, hmem]
      | none =>
        have hmem : ¬ n ∈ preorderList cs := by
          rw [← chainToList_isSome_iff n cs, hc]
          simp
        simp [List.mem_cons, hmem, hnl]

theorem chainToList_isSome_iff (n : Nat) : ∀ (cs : List VTree),
    (chainToList n cs).isSome = true ↔ n ∈ preorderList cs
  | [] => by
    rw [chainToList, preorderList]
    simp
  | c :: rest => by
    rw [chainToList, preorderList]
    cases hc : chainTo n c with
    | some ch =>
      have : (chainTo n c).isSome = true := by rw [hc]; rfl
      rw [chainTo_isSome_iff n c] at this
      simp [List.mem_append, this]
    | none =>
      have : ¬ (chainTo n c).isSome = true := by rw [hc]; decide
      rw [chainTo_isSome_iff n c] at this
      rw [chainToList_isSome_iff n rest]
      simp [List.mem_append, this]

end

theorem sublist_before_pivot {n : Nat} : ∀ (P1 : List Nat) {l1 P2 : List Nat},
    List.Sublist (l1 ++ [n]) (P1 ++ n :: P2) → n ∉ P1 → n ∉ P2 →
    List.Sublist l1 P1
  | [], l1, P2, h, _, hn2 => by
    cases l1 with
    | nil => exact List.Sublist.refl []
    | cons m l1t =>
      rw [List.nil_append] at h
      cases h with
      | cons a h2 =>
        exact absurd (h2.subset (by simp)) hn2
      | cons₂ a h2 =>
        exact absurd (h2.subset (by simp)) hn2
  | p :: P1t, l1, P2, h, hn1, hn2 => by
    have hp : p ≠ n := fun hc => hn1 (by simp [hc])
    cases l1 with
    | nil => exact List.nil_sublist _
    | cons m l1t =>
      rw [List.cons_append, List.cons_append] at h
      cases h with
      | cons a h2 =>
        exact (sublist_before_pivot P1t h2 (fun hc => hn1 (by simp [hc])) hn2).cons p
      | cons₂ a h2 =>
        exact (sublist_before_pivot P1t h2 (fun hc => hn1 (by simp [hc])) hn2).cons₂ _

theorem preorder_split (n : Nat) (t : VTree) (hmem : n ∈ preorder t) :
    preorder t = (preorder t).takeWhile (fun m => m ≠ n) ++
      n :: afterInPreorder n t ∧
    n ∉ (preorder t).takeWhile (fun m => m ≠ n) := by
  constructor
  · have hne : (preorder t).dropWhile (fun m => m ≠ n) ≠ [] := by
      intro hnil
      rw [List.dropWhile_eq_nil_iff] at hnil
      have := hnil n hmem
      simp at this
    have hhead : ((preorder t).dropWhile (fun m => m ≠ n)).head hne = n := by
      have := List.head_dropWhile_not (fun m => decide (m ≠ n)) (preorder t) hne
      simpa using this
    calc preorder t
        = (preorder t).takeWhile (fun m => m ≠ n) ++
            (preorder t).dropWhile (fun m => m ≠ n) :=
          (List.takeWhile_append_dropWhile _ _).symm
      _ = (preorder t).takeWhile (fun m => m ≠ n) ++
            n :: afterInPreorder n t := by
          unfold afterInPreorder
          congr 1
          conv_lhs => rw [← List.head_cons_tail _ hne]
          rw [hhead]
  · intro hcontra
    have := List.mem_takeWhile_imp hcontra
    simp at this

theorem walkabout_skipNode (V : Visitor) (l : Nat) (cs : List VTree)
    (h : V.visitSig l = .skipNode) :
    walkabout V (.node l cs) = ([.vis l], .ret false) := by
  rw [walkabout, h]

theorem walkabout_skipSiblings (V : Visitor) (l : Nat) (cs : List VTree)
    (h : V.visitSig l = .skipSiblings) :
    walkabout V (.node l cs) = ([.vis l], .exc .skipSiblings) := by
  rw [walkabout, h]

theorem walkabout_skipChildren (V : Visitor) (l : Nat) (cs : List VTree)
    (h : V.visitSig l = .skipChildren) :
    walkabout V (.node l cs) = ([.vis l, .dep l],
      if V.departSig l = .cont then .ret false else .exc (V.departSig l)) := by
  rw [walkabout, h]
  unfold departPhase
  simp

theorem walkabout_stopT (V : Visitor) (l : Nat) (cs : List VTree)
    (h : V.visitSig l = .stopT) :
    walkabout V (.node l cs) = ([.vis l, .dep l],
      if V.departSig l = .cont then .ret true else .exc (V.departSig l)) := by
  rw [walkabout, h]
  unfold departPhase
  simp

theorem walkabout_cont_stopping (V : Visitor) (l : Nat) (cs : List VTree)
    (h : V.visitSig l = .cont)
    (h2 : (walkList V cs).2 = .done true ∨ (walkList V cs).2 = .lexc .stopT) :
    walkabout V (.node l cs) =
      (.vis l :: (walkList V cs).1 ++ [.dep l],
       if V.departSig l = .cont then .ret true else .exc (V.departSig l)) := by
  rw [walkabout, h]
  dsimp only
  rcases h2 with h2 | h2 <;> rw [h2] <;> unfold departPhase <;> simp

theorem walkabout_skipDeparture_events (V : Visitor) (l : Nat) (cs : List VTree)
    (h : V.visitSig l = .skipDeparture) :
    (walkabout V (.node l cs)).1 = .vis l :: (walkList V cs).1 := by
  rw [walkabout, h]
  dsimp only
  cases h2 : (walkList V cs).2 with
  | done stop =>
    unfold departPhase
    simp
  | lexc e =>
    cases e <;> unfold departPhase <;> simp

theorem walkList_cons_ret_true (V : Visitor) (c : VTree) (rest : List VTree)
    (h : (walkabout V c).2 = .ret true) :
    walkList V (c :: rest) = ((walkabout V c).1, .done true) := by
  rw [walkList]
  dsimp only
  rw [h]

theorem walkList_cons_ret_false (V : Visitor) (c : VTree) (rest : List VTree)
    (h : (walkabout V c).2 = .ret false) :
    walkList V (c :: rest) =
      ((walkabout V c).1 ++ (walkList V rest).1, (walkList V rest).2) := by
  rw [walkList]
  dsimp only
  rw [h]

theorem walkList_cons_exc (V : Visitor) (c : VTree) (rest : List VTree)
    (s : Sig) (h : (walkabout V c).2 = .exc s) :
    walkList V (c :: rest) = ((walkabout V c).1, .lexc s) := by
  rw [walkList]
  dsimp only
  rw [h]

/-- The ancestor conditions of the stop lemma: every proper ancestor's
visit handler did not raise SkipDeparture, and the depart handlers of
the stopped node and its proper ancestors return normally or raise
StopTraversal. -/
def AncOk (V : Visitor) (ch : List Nat) : Prop :=
  ∀ a ∈ ch, V.visitSig a ≠ .skipDeparture ∧
    (V.departSig a = .cont ∨ V.departSig a = .stopT)

mutual

theorem walk_stop (V : Visitor) (n : Nat) : ∀ (t : VTree),
    (preorder t).Nodup →
    V.visitSig n = .stopT →
    (V.departSig n = .cont ∨ V.departSig n = .stopT) →
    (∀ ch, chainTo n t = some ch → AncOk V ch) →
    Ev.vis n ∈ (walkabout V t).1 →
    ∃ pre post, (walkabout V t).1 = pre ++ Ev.vis n :: post ∧
      (∀ m, Ev.vis m ∉ post) ∧
      (∀ ch, chainTo n t = some ch → ∀ a ∈ ch, Ev.dep a ∈ post) ∧
      ((walkabout V t).2 = .ret true ∨ (walkabout V t).2 = .exc .stopT)
  | .node l cs, hnodup, hsig, hdepn, hanc, hvis => by
    by_cases hl : l = n
    · subst hl
      rw [walkabout_stopT V l cs hsig] at hvis ⊢
      refine ⟨[], [Ev.dep l], by simp, ?_, ?_, ?_⟩
      · intro m hm
        simp at hm
      · intro ch hch a ha
        rw [chainTo, if_pos rfl] at hch
        obtain rfl : ([] : List Nat) = ch := by injection hch
        simp at ha
      · rcases hdepn with h | h <;> rw [h] <;> simp
    · -- the stopped node lies strictly below l
      have hvn : Ev.vis n ∈ (walkList V cs).1 := by
        rcases walkabout_events_shape V l cs with h | h | h | h <;>
          rw [h] at hvis <;> simp at hvis
        · exact absurd hvis.symm hl
        · exact absurd hvis.symm hl
        · rcases hvis with h1 | h1
          · exact absurd h1.symm hl
          · exact h1
        · rcases hvis with h1 | h1
          · exact absurd h1.symm hl
          · exact h1
      have hmemcs : n ∈ preorderList cs :=
        (visits_sublist_forest V cs).subset (mem_visitsOf n _ hvn)
      obtain ⟨ch0, hch0⟩ := Option.isSome_iff_exists.mp
        ((chainToList_isSome_iff n cs).mpr hmemcs)
      have hchT : chainTo n (.node l cs) = some (l :: ch0) := by
        rw [chainTo, if_neg hl, hch0]
        rfl
      have hancl := hanc _ hchT l (by simp)
      have hancList : ∀ ch, chainToList n cs = some ch → AncOk V ch := by
        intro ch hch a ha
        rw [hch0] at hch
        obtain rfl : ch0 = ch := by injection hch
        exact hanc _ hchT a (by simp [ha])
      have hnodup2 : (preorderList cs).Nodup := by
        rw [preorder] at hnodup
        exact (List.nodup_cons.mp hnodup).2
      obtain ⟨pre1, post1, hev1, hnv1, hdep1, hres1⟩ :=
        walk_list_stop V n cs hnodup2 hsig hdepn hancList hvn
      cases hv : V.visitSig l with
      | skipNode =>
        rw [walkabout_skipNode V l cs hv] at hvis
        simp at hvis
        exact absurd hvis.symm hl
      | skipSiblings =>
        rw [walkabout_skipSiblings V l cs hv] at hvis
        simp at hvis
        exact absurd hvis.symm hl
      | skipChildren =>
        rw [walkabout_skipChildren V l cs hv] at hvis
        simp at hvis
        exact absurd hvis.symm hl
      | stopT =>
        rw [walkabout_stopT V l cs hv] at hvis
        simp at hvis
        exact absurd hvis.symm hl
      | skipDeparture => exact absurd hv hancl.1
      | cont =>
        rw [walkabout_cont_stopping V l cs hv hres1]
        refine ⟨Ev.vis l :: pre1, post1 ++ [Ev.dep l], ?_, ?_, ?_, ?_⟩
        · rw [hev1]
          simp
        · intro m hm
          rcases List.mem_append.mp hm with hm | hm
          · exact hnv1 m hm
          · simp at hm
        · intro ch hch a ha
          rw [hchT] at hch
          obtain rfl : l :: ch0 = ch := by injection hch
          rcases List.mem_cons.mp ha with rfl | ha
          · exact List.mem_append.mpr (Or.inr (by simp))
          · exact List.mem_append.mpr (Or.inl (hdep1 ch0 hch0 a ha))
        · rcases hancl.2 with h | h <;> rw [h] <;> simp

theorem walk_list_stop (V : Visitor) (n : Nat) : ∀ (cs : List VTree),
    (preorderList cs).Nodup →
    V.visitSig n = .stopT →
    (V.departSig n = .cont ∨ V.departSig n = .stopT) →
    (∀ ch, chainToList n cs = some ch → AncOk V ch) →
    Ev.vis n ∈ (walkList V cs).1 →
    ∃ pre post, (walkList V cs).1 = pre ++ Ev.vis n :: post ∧
      (∀ m, Ev.vis m ∉ post) ∧
      (∀ ch, chainToList n cs = some ch → ∀ a ∈ ch, Ev.dep a ∈ post) ∧
      ((walkList V cs).2 = .done true ∨ (walkList V cs).2 = .lexc .stopT)
  | [], _, _, _, _, hvis => by
    rw [walkList] at hvis
    simp at hvis
  | c :: rest, hnodup, hsig, hdepn, hanc, hvis => by
    have hnd := List.nodup_append.mp (by rw [preorderList] at hnodup; exact hnodup)
    by_cases hc : Ev.vis n ∈ (walkabout V c).1
    · -- the stopped node lies in the first child's subtree
      have hmemc : n ∈ preorder c :=
        (visits_sublist V c).subset (mem_visitsOf n _ hc)
      obtain ⟨chc, hchc⟩ := Option.isSome_iff_exists.mp
        ((chainTo_isSome_iff n c).mpr hmemc)
      have hchL : chainToList n (c :: rest) = some chc := by
        rw [chainToList, hchc]
      have hancT : ∀ ch, chainTo n c = some ch → AncOk V ch := by
        intro ch hch
        rw [hchc] at hch
        obtain rfl : chc = ch := by injection hch
        exact hanc _ hchL
      obtain ⟨pre1, post1, hev1, hnv1, hdep1, hres1⟩ :=
        walk_stop V n c hnd.1 hsig hdepn hancT hc
      have hdeps : ∀ ch, chainToList n (c :: rest) = some ch →
          ∀ a ∈ ch, Ev.dep a ∈ post1 := by
        intro ch hch
        rw [hchL] at hch
        obtain rfl : chc = ch := by injection hch
        exact hdep1 chc hchc
      rcases hres1 with hr | hr
      · rw [walkList_cons_ret_true V c rest hr]
        exact ⟨pre1, post1, hev1, hnv1, hdeps, Or.inl rfl⟩
      · rw [walkList_cons_exc V c rest .stopT hr]
        exact ⟨pre1, post1, hev1, hnv1, hdeps, Or.inr rfl⟩
    · -- the stopped node lies in a later sibling's subtree
      have hr0 : (walkabout V c).2 = .ret false ∧
          Ev.vis n ∈ (walkList V rest).1 := by
        cases hres : (walkabout V c).2 with
        | ret stop =>
          cases stop with
          | true =>
            rw [walkList_cons_ret_true V c rest hres] at hvis
            exact absurd hvis hc
          | false =>
            rw [walkList_cons_ret_false V c rest hres] at hvis
            rcases List.mem_append.mp hvis with h | h
            · exact absurd h hc
            · exact ⟨rfl, h⟩
        | exc s =>
          rw [walkList_cons_exc V c rest s hres] at hvis
          exact absurd hvis hc
      have hmemrest : n ∈ preorderList rest :=
        (visits_sublist_forest V rest).subset (mem_visitsOf n _ hr0.2)
      have hnc : n ∉ preorder c := fun hmem => hnd.2.2 hmem hmemrest
      have hcnone : chainTo n c = none := by
        cases hcn : chainTo n c with
        | none => rfl
        | some ch =>
          exact absurd ((chainTo_isSome_iff n c).mp (by rw [hcn]; rfl)) hnc
      have hchLrest : chainToList n (c :: rest) = chainToList n rest := by
        rw [chainToList, hcnone]
      have hancRest : ∀ ch, chainToList n rest = some ch → AncOk V ch := by
        intro ch hch
        exact hanc ch (by rw [hchLrest]; exact hch)
      obtain ⟨pre2, post2, hev2, hnv2, hdep2, hres2⟩ :=
        walk_list_stop V n rest hnd.2.1 hsig hdepn hancRest hr0.2
      rw [walkList_cons_ret_false V c rest hr0.1]
      refine ⟨(walkabout V c).1 ++ pre2, post2, ?_, hnv2, ?_, hres2⟩
      · rw [hev2]
        simp
      · intro ch hch
        exact hdep2 ch (by rw [← hchLrest]; exact hch)

end

theorem visitsOf_nil_of_no_vis (evs : List Ev) (h : ∀ m, Ev.vis m ∉ evs) :
    visitsOf evs = [] := by
  induction evs with
  | nil => rfl
  | cons e rest ih =>
    cases e with
    | vis m => exact absurd (by simp) (h m)
    | dep m =>
      show visitsOf rest = []
      exact ih (fun m2 hm2 => h m2 (by simp [hm2]))

/-- C7, amended: if the visitor raises StopTraversal while visiting node
n during walkabout of a tree with distinct labels, and no ancestor's
visit raised SkipDeparture, and the depart handlers of n and its
ancestors return normally or raise StopTraversal, then: n is visited, no
node positioned after n in pre-order is visited, and the depart dispatch
still runs — after the visit of n — for every still-open ancestor of n
as the traversal unwinds. -/
theorem walkabout_stop_unwinds (V : Visitor) (t : VTree) (n : Nat)
    (hnodup : (preorder t).Nodup)
    (hsig : V.visitSig n = .stopT)
    (hdepn : V.departSig n = .cont ∨ V.departSig n = .stopT)
    (hanc : ∀ ch, chainTo n t = some ch → AncOk V ch)
    (hvis : Ev.vis n ∈ (walkabout V t).1) :
    ∃ pre post, (walkabout V t).1 = pre ++ Ev.vis n :: post ∧
      (∀ m, Ev.vis m ∉ post) ∧
      (∀ ch, chainTo n t = some ch → ∀ a ∈ ch, Ev.dep a ∈ post) ∧
      (∀ m, m ∈ afterInPreorder n t → Ev.vis m ∉ (walkabout V t).1) := by
  obtain ⟨pre, post, hev, hnv, hdep, _⟩ :=
    walk_stop V n t hnodup hsig hdepn hanc hvis
  refine ⟨pre, post, hev, hnv, hdep, ?_⟩
  intro m hm hmem
  have hvrun : visitsOf (walkabout V t).1 = visitsOf pre ++ [n] := by
    rw [hev, visitsOf_append, visitsOf_vis_cons, visitsOf_nil_of_no_vis post hnv]
  have hsub : List.Sublist (visitsOf pre ++ [n]) (preorder t) :=
    hvrun ▸ visits_sublist V t
  have hmemn : n ∈ preorder t := hsub.subset (by simp)
  obtain ⟨hsplit, hnotin⟩ := preorder_split n t hmemn
  have hnodup2 := hnodup
  rw [hsplit] at hnodup2
  have hdisj := List.nodup_append.mp hnodup2
  have hnafter : n ∉ afterInPreorder n t := (List.nodup_cons.mp hdisj.2.1).1
  have hmrun : m ∈ visitsOf pre ++ [n] := by
    rw [← hvrun]
    exact mem_visitsOf m _ hmem
  rcases List.mem_append.mp hmrun with hmp | hmn
  · have hsub2 : List.Sublist (visitsOf pre)
        ((preorder t).takeWhile (fun x => x ≠ n)) := by
      apply sublist_before_pivot ((preorder t).takeWhile (fun x => x ≠ n))
        ?_ hnotin hnafter
      rw [← hsplit]
      exact hsub
    have hmtake : m ∈ (preorder t).takeWhile (fun x => x ≠ n) :=
      hsub2.subset hmp
    exact hdisj.2.2 hmtake (List.mem_cons_of_mem n hm)
  · rw [List.mem_singleton] at hmn
    exact hnafter (hmn ▸ hm)

/-- C7 counterexample: two visitors that satisfy the claim's premise
(StopTraversal raised during the visit of node 3) yet break its
conclusion.  With a SkipDeparture raised by the visit of the still-open
ancestor 2, the unwind never calls the depart of node 2; with a depart
handler of node 3 raising SkipChildren, the traversal resumes and
visits node 4, which is positioned after node 3 in pre-order. -/
theorem walkabout_stop_counterexample :
    skipDepAt2.visitSig 3 = .stopT ∧
    (walkabout skipDepAt2 chainTree).1 =
      [Ev.vis 1, Ev.vis 2, Ev.vis 3, Ev.dep 3, Ev.dep 1] ∧
    chainTo 3 chainTree = some [1, 2] ∧
    Ev.dep 2 ∉ (walkabout skipDepAt2 chainTree).1 ∧
    departRaisesAt3.visitSig 3 = .stopT ∧
    (walkabout departRaisesAt3 forkTree).1 =
      [Ev.vis 1, Ev.vis 2, Ev.vis 3, Ev.dep 3, Ev.dep 2,
       Ev.vis 4, Ev.dep 4, Ev.dep 1] ∧
    afterInPreorder 3 forkTree = [4] ∧
    Ev.vis 4 ∈ (walkabout departRaisesAt3 forkTree).1 := by
  have h1 : (walkabout skipDepAt2 chainTree).1 =
      [Ev.vis 1, Ev.vis 2, Ev.vis 3, Ev.dep 3, Ev.dep 1] := by
    simp [walkabout, walkList, departPhase, skipDepAt2, chainTree]
  have h2 : (walkabout departRaisesAt3 forkTree).1 =
      [Ev.vis 1, Ev.vis 2, Ev.vis 3, Ev.dep 3, Ev.dep 2,
       Ev.vis 4, Ev.dep 4, Ev.dep 1] := by
    simp [walkabout, walkList, departPhase, departRaisesAt3, forkTree]
  refine ⟨rfl, h1, ?_, ?_, rfl, h2, ?_, ?_⟩
  · simp [chainTo, chainToList, chainTree]
  · rw [h1]
    decide
  · have : preorder forkTree = [1, 2, 3, 4] := by
      simp [preorder, preorderList, forkTree]
    rw [afterInPreorder, this]
    decide
  · rw [h2]
    decide

/-- C7 witness: the amended theorem applied to the chain tree with the
plain stop-at-3 visitor. -/
theorem walkabout_stop_unwinds_witness :
    (preorder chainTree).Nodup ∧
    stopAt3.visitSig 3 = .stopT ∧
    (stopAt3.departSig 3 = .cont ∨ stopAt3.departSig 3 = .stopT) ∧
    (∀ ch, chainTo 3 chainTree = some ch → AncOk stopAt3 ch) ∧
    Ev.vis 3 ∈ (walkabout stopAt3 chainTree).1 ∧
    (∃ pre post, (walkabout stopAt3 chainTree).1 = pre ++ Ev.vis 3 :: post ∧
      (∀ m, Ev.vis m ∉ post) ∧
      (∀ ch, chainTo 3 chainTree = some ch → ∀ a ∈ ch, Ev.dep a ∈ post) ∧
      (∀ m, m ∈ afterInPreorder 3 chainTree →
        Ev.vis m ∉ (walkabout stopAt3 chainTree).1)) := by
  have hpre : preorder chainTree = [1, 2, 3] := by
    simp [preorder, preorderList, chainTree]
  have hnodup : (preorder chainTree).Nodup := by
    rw [hpre]
    decide
  have hch : chainTo 3 chainTree = some [1, 2] := by
    simp [chainTo, chainToList, chainTree]
  have hanc : ∀ ch, chainTo 3 chainTree = some ch → AncOk stopAt3 ch := by
    intro ch h
    rw [hch] at h
    obtain rfl : ([1, 2] : List Nat) = ch := by injection h
    unfold AncOk
    decide
  have hvis : Ev.vis 3 ∈ (walkabout stopAt3 chainTree).1 := by
    have : (walkabout stopAt3 chainTree).1 =
        [Ev.vis 1, Ev.vis 2, Ev.vis 3, Ev.dep 3, Ev.dep 2, Ev.dep 1] := by
      simp [walkabout, walkList, departPhase, stopAt3, chainTree]
    rw [this]
    decide
  exact ⟨hnodup, rfl, Or.inl rfl, hanc, hvis,
    walkabout_stop_unwinds stopAt3 chainTree 3 hnodup rfl (Or.inl rfl) hanc hvis⟩

end Docutils
